import Mathlib

/-!
Verification of `scripts/create_cfn_coverage_table.py`.

The script has three cores: a row transformer (`CloudFormationDataTransformer.transform`),
a markdown table renderer (`MarkdownTableGenerator`) and a regex-based section replacer
(`replace_content_between`), glued by `main`.

Embedding conventions:
* Documents are `List Char`; Python `len` on `str` is `String.length` (both count
  unicode code points).
* Python dicts appearing as rows are association lists `List (String × Value)` with
  `dict.get` modelled by `rowGet`; a coverage section is a `List (String × Metadata)`
  (insertion-ordered, distinct keys), a resource's metadata being its `"methods"` entry.
* The compiled regex `(^{starting_rx}\s*\n)(.*?)(?={ending_rx})` with `re.DOTALL` and
  `re.MULTILINE` is embedded directly: the parts written by the source (`^` line anchor,
  greedy `\s*\n` with backtracking, non-greedy `.*?`, lookahead, leftmost match) are
  translated into the scanning functions below, while the two parameter patterns
  `starting_rx` / `ending_rx` are abstracted as matcher functions (the start pattern as
  a deterministic match-length function, the end pattern as a match test).  The concrete
  heading patterns of the script are instantiated as such matchers further down.
* The `\s` class of a `str` pattern is Python's full Unicode whitespace set
  (`str.isspace`), embedded as `isWs` below.
* `pattern.sub(replacement, content, count=1)` expands `replacement` as a template:
  backreferences such as `\1` insert the corresponding group's text and invalid
  escapes raise `re.error`.  The template parser (`parseTemplate`) and expander
  (`expandItems`) below follow CPython's `re._parser.parse_template` / `expand_template`:
  group references `\1`..`\99` bounded by the pattern's group count, `\g<name>`
  references, octal escapes, the known letter escapes, "bad escape" on an unknown
  escaped ASCII letter or a trailing backslash, and a kept two-character sequence for
  an escaped non-letter.  Exceptions are modelled as `Except.error`; `re.error`
  messages carry a `re.error: ` tag to keep them distinct from the `ValueError` wording.
-/

set_option maxRecDepth 4000

namespace CfnCoverage

/-- Whitespace as matched by the whitespace class of the source's patterns: on
`str` patterns this is the full Unicode whitespace set (the `str.isspace`
characters): the ASCII blanks, the C1 separators 1C-1F and 85, NO-BREAK SPACE A0,
OGHAM SPACE MARK 1680, the EN-QUAD..HAIR-SPACE run 2000-200A, LINE and PARAGRAPH
SEPARATOR 2028/2029, NARROW NO-BREAK SPACE 202F, MEDIUM MATHEMATICAL SPACE 205F and
IDEOGRAPHIC SPACE 3000. -/
def isWs (c : Char) : Bool :=
  c == ' ' || c == '\t' || c == '\n' || c == '\r' || c == '\x0b' || c == '\x0c'
  || (decide ('\x1c' ≤ c) && decide (c ≤ '\x1f')) || c == '\x85' || c == '\xa0'
  || c == ' ' || (decide (' ' ≤ c) && decide (c ≤ ' '))
  || c == ' ' || c == ' ' || c == ' ' || c == ' '
  || c == '　'

/-- Character of `s` at index `i`, with an out-of-range placeholder that is not
whitespace and not a newline. -/
def charAt (s : List Char) (i : Nat) : Char :=
  (s.drop i).headD 'x'

/-- Position `i` is a line start (`^` with `re.MULTILINE`): offset 0 or right after a
newline. -/
def lineStart (s : List Char) (i : Nat) : Bool :=
  i == 0 || charAt s (i - 1) == '\n'

/-- Length of the maximal whitespace run at the head of a list. -/
def wsRun : List Char → Nat
  | [] => 0
  | c :: cs => if isWs c then wsRun cs + 1 else 0

/-- Length of the maximal whitespace run of `s` starting at index `i`. -/
def wsRunLen (s : List Char) (i : Nat) : Nat :=
  wsRun (s.drop i)

/-- Least `j` with `start ≤ j < start + fuel` and `p j`. -/
def firstHitAux (p : Nat → Bool) : Nat → Nat → Option Nat
  | 0, _ => none
  | fuel + 1, i => if p i then some i else firstHitAux p fuel (i + 1)

/-- Least `j` with `j < n` and `p j`. -/
def firstHit (p : Nat → Bool) (n : Nat) : Option Nat :=
  firstHitAux p n 0

/-- Least `j` with `lo ≤ j ≤ hi` and `p j`. -/
def firstHitFrom (p : Nat → Bool) (lo hi : Nat) : Option Nat :=
  firstHitAux p (hi + 1 - lo) lo

/-- Greatest `k < n` with `p k`. -/
def lastHit (p : Nat → Bool) : Nat → Option Nat
  | 0 => none
  | n + 1 => if p n then some n else lastHit p n

/-- Group 1 of the compiled pattern at position `i`, with the lookahead position:
`sM s i` is the (deterministic) length consumed by `starting_rx` at `i`, then `\s*\n`
takes the longest whitespace run ending in a newline for which the `(?={ending_rx})`
lookahead can still be reached (greedy with backtracking), and `.*?` extends to the
least position `q` where the end pattern matches.  Returns `(h, q)` where `h` is the
end of group 1 and `q` the captured span's end. -/
def composedOk (sM : List Char → Nat → Option Nat) (eM : List Char → Nat → Bool)
    (s : List Char) (i : Nat) : Option (Nat × Nat) :=
  match sM s i with
  | none => none
  | some l =>
    match lastHit (fun k => charAt s (i + l + k) == '\n'
        && (firstHitFrom (eM s) (i + l + k + 1) s.length).isSome) (wsRunLen s (i + l)) with
    | none => none
    | some k =>
      match firstHitFrom (eM s) (i + l + k + 1) s.length with
      | none => none
      | some q => some (i + l + k + 1, q)

/-- Leftmost match of the compiled pattern (`re.Pattern.search`): least line-start
position `i` where group 1 and the lookahead succeed; returns `(i, h, q)` with `h`
the end of group 1 and `q` the end of the captured span. -/
def findMatch (sM : List Char → Nat → Option Nat) (eM : List Char → Nat → Bool)
    (s : List Char) : Option (Nat × Nat × Nat) :=
  match firstHit (fun i => lineStart s i && (composedOk sM eM s i).isSome)
      (s.length + 1) with
  | none => none
  | some i =>
    match composedOk sM eM s i with
    | none => none
    | some (h, q) => some (i, h, q)

/-- Decimal digit as classified by the template parser. -/
def isDigitCh (c : Char) : Bool :=
  decide ('0' ≤ c) && decide (c ≤ '9')

/-- Octal digit as classified by the template parser. -/
def isOctDigit (c : Char) : Bool :=
  decide ('0' ≤ c) && decide (c ≤ '7')

/-- ASCII letter (an unknown escaped letter in a template is an error, an unknown
escaped non-letter keeps the backslash). -/
def isAsciiLetter (c : Char) : Bool :=
  (decide ('a' ≤ c) && decide (c ≤ 'z')) || (decide ('A' ≤ c) && decide (c ≤ 'Z'))

/-- Numeric value of a decimal digit. -/
def digitVal (c : Char) : Nat :=
  c.toNat - '0'.toNat

/-- The known character escapes of the replacement-template parser (in a template,
the escape written with `b` is a backspace). -/
def templEscape? : Char → Option Char
  | 'a' => some '\x07'
  | 'b' => some '\x08'
  | 'f' => some '\x0c'
  | 'n' => some '\n'
  | 'r' => some '\x0d'
  | 't' => some '\t'
  | 'v' => some '\x0b'
  | '\\' => some '\\'
  | _ => Option.none

/-- ASCII approximation of the identifier test the template parser applies to a
group name.  The source's pattern defines no named groups, so every identifier name
fails with the unknown-group-name error; the approximation can only move an exotic
non-ASCII name between that failure and the bad-character failure, never between
success and failure. -/
def pyIsIdentifier (name : List Char) : Bool :=
  match name with
  | [] => false
  | c :: cs => (isAsciiLetter c || c == '_')
      && cs.all (fun d => isAsciiLetter d || isDigitCh d || d == '_')

/-- Continuation of a digit run with single underscores between digits (the shape
Python's `int` accepts after the first digit). -/
def pyIntDigitsRest : List Char → Bool
  | [] => true
  | '_' :: rest =>
    match rest with
    | c :: rest2 => isDigitCh c && pyIntDigitsRest rest2
    | [] => false
  | c :: rest => isDigitCh c && pyIntDigitsRest rest

/-- Digit run with single underscores between digits. -/
def pyIntDigits : List Char → Bool
  | [] => false
  | c :: cs => isDigitCh c && pyIntDigitsRest cs

/-- Value of a digit run, ignoring underscores. -/
def digitsToNat (l : List Char) : Nat :=
  l.foldl (fun a c => if c == '_' then a else a * 10 + digitVal c) 0

/-- Python `int(name)` as used for a numeric group name, yielding only non-negative
results (a negative value makes the caller fail anyway): surrounding whitespace is
stripped, an optional plus sign is allowed, then decimal digits with single
underscore separators (ASCII digits; the interpreter also accepts other Unicode
decimal digits). -/
def pyIntNonNeg? (name : List Char) : Option Nat :=
  match ((name.dropWhile isWs).reverse.dropWhile isWs).reverse with
  | '+' :: rest => if pyIntDigits rest then some (digitsToNat rest) else Option.none
  | '-' :: _ => Option.none
  | rest => if pyIntDigits rest then some (digitsToNat rest) else Option.none

/-- Resolution of a bracketed group name in a template: an identifier is looked up
among the pattern's named groups — the source's pattern has none, so it always
fails — and anything else is parsed as a non-negative integer group number or
fails.  Error strings are short tags, not the interpreter's exact diagnostics (the
unknown-name case is an `IndexError` in Python, the others `re.error`). -/
def templGroupIndex (name : List Char) : Except String Nat :=
  if pyIsIdentifier name then .error "unknown group name"
  else
    match pyIntNonNeg? name with
    | some n => .ok n
    | Option.none => .error "bad character in group name"

/-- One piece of a parsed replacement template: a literal character or a reference
to a numbered group. -/
inductive TemplateItem where
  | lit (c : Char)
  | group (n : Nat)
deriving DecidableEq, Repr

/-- Handling of one template escape (the backslash itself is already consumed):
the items it yields and the remaining template.  `g<name>` resolves a named or
numbered group (checked against the pattern's group count); a zero digit starts an
octal escape of up to two more octal digits; another digit starts a one- or
two-digit group number, except that three octal digits form an octal character
escape (range-checked); known letter escapes become their characters, an unknown
escaped letter is an error, and an unknown escaped non-letter keeps both
characters.  A lone trailing backslash is an error. -/
def parseEscape (groups : Nat) : List Char → Except String (List TemplateItem × List Char)
  | [] => .error "bad escape (end of pattern)"
  | 'g' :: rest2 =>
    match rest2 with
    | '<' :: rest3 =>
      let name := rest3.takeWhile (fun c => c != '>')
      if name.length < rest3.length then
        if name.isEmpty then .error "missing group name"
        else
          match templGroupIndex name with
          | .error e => .error e
          | .ok idx =>
            if groups < idx then .error "invalid group reference"
            else .ok ([.group idx], rest3.drop (name.length + 1))
      else .error "missing >, unterminated name"
    | _ => .error "missing <"
  | '0' :: rest2 =>
    match rest2 with
    | o1 :: rest3 =>
      if isOctDigit o1 then
        match rest3 with
        | o2 :: rest4 =>
          if isOctDigit o2 then
            .ok ([.lit (Char.ofNat (digitVal o1 * 8 + digitVal o2))], rest4)
          else .ok ([.lit (Char.ofNat (digitVal o1))], rest3)
        | [] => .ok ([.lit (Char.ofNat (digitVal o1))], [])
      else .ok ([.lit '\x00'], rest2)
    | [] => .ok ([.lit '\x00'], [])
  | c :: rest2 =>
    if isDigitCh c then
      match rest2 with
      | d2 :: rest3 =>
        if isDigitCh d2 then
          match rest3 with
          | d3 :: rest4 =>
            if isOctDigit c && isOctDigit d2 && isOctDigit d3 then
              if digitVal c * 64 + digitVal d2 * 8 + digitVal d3 > 255 then
                .error "octal escape value outside of range 0-0o377"
              else
                .ok ([.lit (Char.ofNat
                  (digitVal c * 64 + digitVal d2 * 8 + digitVal d3))], rest4)
            else
              if groups < digitVal c * 10 + digitVal d2 then
                .error "invalid group reference"
              else .ok ([.group (digitVal c * 10 + digitVal d2)], rest3)
          | [] =>
            if groups < digitVal c * 10 + digitVal d2 then
              .error "invalid group reference"
            else .ok ([.group (digitVal c * 10 + digitVal d2)], [])
        else
          if groups < digitVal c then .error "invalid group reference"
          else .ok ([.group (digitVal c)], rest2)
      | [] =>
        if groups < digitVal c then .error "invalid group reference"
        else .ok ([.group (digitVal c)], [])
    else
      match templEscape? c with
      | some ec => .ok ([.lit ec], rest2)
      | Option.none =>
        if isAsciiLetter c then .error "bad escape"
        else .ok ([.lit '\\', .lit c], rest2)

/-- The replacement-template parser: literal characters are kept, a backslash
starts an escape handled by `parseEscape`.  Fueled structural recursion: each step
consumes at least one character, so fuel equal to the length suffices. -/
def parseTemplateAux (groups : Nat) : Nat → List Char → Except String (List TemplateItem)
  | _, [] => .ok []
  | 0, _ :: _ => .error "template parser fuel exhausted"
  | fuel + 1, c :: rest =>
    if c == '\\' then
      match parseEscape groups rest with
      | .error e => .error e
      | .ok (items, rest2) =>
        match parseTemplateAux groups fuel rest2 with
        | .error e => .error e
        | .ok items2 => .ok (items ++ items2)
    else
      match parseTemplateAux groups fuel rest with
      | .error e => .error e
      | .ok items => .ok (.lit c :: items)

/-- Parse a full replacement template against a pattern with `groups` groups. -/
def parseTemplate (groups : Nat) (template : List Char) :
    Except String (List TemplateItem) :=
  parseTemplateAux groups template.length template

/-- Expansion of a parsed template over the current match: group 0 is the whole
match, groups 1 and 2 the heading and the captured span — the compiled pattern's
only groups, both of which always participate in any match, so expansion cannot
fail (the parser has already rejected larger group numbers; the catch-all arm is
unreachable). -/
def expandItems (g0 g1 g2 : List Char) : List TemplateItem → List Char
  | [] => []
  | .lit c :: ts => c :: expandItems g0 g1 g2 ts
  | .group 0 :: ts => g0 ++ expandItems g0 g1 g2 ts
  | .group 1 :: ts => g1 ++ expandItems g0 g1 g2 ts
  | .group 2 :: ts => g2 ++ expandItems g0 g1 g2 ts
  | .group _ :: ts => expandItems g0 g1 g2 ts

/-- The source's `replace_content_between`: search the compiled pattern and raise a
`ValueError` naming the start pattern when it is absent; otherwise substitute the
first match (`count=1`).  The substitution processes the replacement string — the
preserved heading plus the block, or the heading alone for an empty block — as a
replacement template: backreferences are expanded against the match and malformed
escapes surface as an `re.error` (modelled as an error string tagged `re.error: `;
the section-not-found `ValueError` keeps the message the source formats). -/
def replace_content_between (sM : List Char → Nat → Option Nat)
    (eM : List Char → Nat → Bool) (starting_rx_name : String)
    (content : List Char) (replacement_block : List Char) :
    Except String (List Char) :=
  match findMatch sM eM content with
  | none => .error ("Could not find section with heading pattern: " ++ starting_rx_name)
  | some (i, h, q) =>
    let heading := (content.drop i).take (h - i)
    let replacement := if replacement_block.isEmpty then heading
      else heading ++ replacement_block
    match parseTemplate 2 replacement with
    | .error e => .error ("re.error: " ++ e)
    | .ok items =>
      .ok (content.take i
        ++ expandItems ((content.drop i).take (q - i)) heading
          ((content.drop h).take (q - h)) items
        ++ content.drop q)

/-- Matcher of a literal pattern (no metacharacters) used to instantiate the abstract
start patterns: consumes exactly the literal when it is present at `i`. -/
def litMatchLen (pat : List Char) (s : List Char) (i : Nat) : Option Nat :=
  if pat.isPrefixOf (s.drop i) then some pat.length else none

/-- Match test of a literal pattern, used to instantiate the abstract end patterns. -/
def litMatchAt (pat : List Char) (s : List Char) (i : Nat) : Bool :=
  pat.isPrefixOf (s.drop i)

/-- Matcher for the heading patterns `tag` + `\s*` + `word` (the script's
`####\s*Community image` and `\n####\s*Pro image`).  `word` starts with a
non-whitespace character, so the greedy whitespace run is forced and the match
length is deterministic. -/
def headingMatchLen (tag word : List Char) (s : List Char) (i : Nat) : Option Nat :=
  if tag.isPrefixOf (s.drop i) then
    let w := wsRunLen s (i + tag.length)
    if word.isPrefixOf (s.drop (i + tag.length + w)) then
      some (tag.length + w + word.length)
    else none
  else none

/-- The script's `COMMUNITY_HEADING_PATTERN`, `####\s*Community image`. -/
def communityStartM : List Char → Nat → Option Nat :=
  headingMatchLen "####".data "Community image".data

/-- The script's `PRO_HEADING_PATTERN`, `\n####\s*Pro image`. -/
def proStartM : List Char → Nat → Option Nat :=
  headingMatchLen "\n####".data "Pro image".data

/-- The pattern `PRO_HEADING_PATTERN` used as an end lookahead. -/
def proEndM (s : List Char) (i : Nat) : Bool :=
  (proStartM s i).isSome

/-- The script's `API_COVERAGE_HEADING_PATTERN`, `^\s*##\s|$\Z`: either a line start
followed by optional whitespace, `##` and one whitespace character, or the end of the
document (`$\Z` is satisfiable only at the very end). -/
def apiEndM (s : List Char) (i : Nat) : Bool :=
  (lineStart s i &&
    (let w := wsRunLen s i
     "##".data.isPrefixOf (s.drop (i + w)) && isWs (charAt s (i + w + 2))))
  || i == s.length

/-- Values held by a row: the transformer produces strings and booleans; the `none`
constructor models Python's `None` (the missing-value sentinel of `format_value`). -/
inductive Value where
  | str (s : String)
  | bool (b : Bool)
  | none
deriving DecidableEq, Repr

/-- Python `str()` on the permitted values. -/
def pyStr : Value → String
  | .str s => s
  | .bool b => if b then "True" else "False"
  | .none => "None"

/-- Python truthiness on the permitted values, as tested by `bool_formatter`. -/
def truthy : Value → Bool
  | .str s => !(s == "")
  | .bool b => b
  | .none => false

/-- A row: one flat dict from column key to value. -/
abbrev Row := List (String × Value)

/-- Python `row.get(key, default)`. -/
def rowGet (row : Row) (key : String) (default : Value) : Value :=
  match row.find? (fun p => p.1 == key) with
  | some p => p.2
  | Option.none => default

/-- The source's `ColumnConfig` dataclass. -/
structure ColumnConfig where
  header : String
  key : String
  alignment : String := "left"
  formatter : Option (Value → String) := Option.none

/-- The source's `ColumnConfig.format_value`: the formatter when configured, else `str(value)` for
a non-`None` value, else the placeholder. -/
def ColumnConfig.format_value (c : ColumnConfig) (value : Value) : String :=
  match c.formatter with
  | some f => f value
  | Option.none => if value == Value.none then "-" else pyStr value

/-- The source's `bool_formatter` (its glyph for a truthy value is the three-character
string the file literally contains). -/
def bool_formatter (value : Value) : String :=
  if truthy value then "âœ…" else "-"

/-- The source's `TableConfig` dataclass. -/
structure TableConfig where
  columns : List ColumnConfig
  sort_by : Option String := Option.none

def TableConfig.get_headers (cfg : TableConfig) : List String :=
  cfg.columns.map (fun col => col.header)

/-- A run of `n` copies of a character (Python `c * n`). -/
def pyRepl (n : Nat) (c : Char) : String :=
  String.mk (List.replicate n c)

/-- Python `sep.join(xs)`. -/
def pyJoin (sep : String) : List String → String
  | [] => ""
  | [x] => x
  | x :: y :: xs => x ++ sep ++ pyJoin sep (y :: xs)

/-- Concatenation of successive `writer.write` calls. -/
def writes : List String → String
  | [] => ""
  | x :: xs => x ++ writes xs

/-- Python `str.rjust` with the space fill character (no truncation). -/
def rjust (s : String) (width : Nat) : String :=
  pyRepl (width - s.length) ' ' ++ s

/-- Python `str.ljust` with the space fill character (no truncation). -/
def ljust (s : String) (width : Nat) : String :=
  s ++ pyRepl (width - s.length) ' '

/-- Python `str.center`: CPython splits the margin as
`left = marg // 2 + (marg & width & 1)`. -/
def center (s : String) (width : Nat) : String :=
  let marg := width - s.length
  let left := marg / 2 + (marg &&& width &&& 1)
  pyRepl left ' ' ++ s ++ pyRepl (marg - left) ' '

/-- The source's `MarkdownTableGenerator._calculate_column_widths`. -/
def calculate_column_widths (cfg : TableConfig) (data : List Row) : List Nat :=
  cfg.columns.map (fun col =>
    data.foldl (fun max_width row =>
      max max_width (col.format_value (rowGet row col.key (.str ""))).length)
      col.header.length)

/-- The source's `MarkdownTableGenerator._get_alignment_separator`. -/
def get_alignment_separator (alignment : String) (width : Nat) : String :=
  if alignment == "right" then pyRepl (width + 1) '-' ++ ":"
  else if alignment == "center" then ":" ++ pyRepl width '-' ++ ":"
  else pyRepl width '-'

/-- The source's `MarkdownTableGenerator._format_cell`. -/
def format_cell (value : String) (width : Nat) (alignment : String) : String :=
  if alignment == "right" then rjust value width
  else if alignment == "center" then center value width
  else ljust value width

/-- The source's `MarkdownTableGenerator._write_header_row` (the string it writes;
columns and widths are walked in lockstep as the source's `enumerate` index does). -/
def write_header_row (cfg : TableConfig) (widths : List Nat) : String :=
  let formatted_headers := (cfg.columns.zip widths).map (fun cw =>
    format_cell cw.1.header cw.2 cw.1.alignment)
  "| " ++ pyJoin " | " formatted_headers ++ " |\n"

/-- The source's `MarkdownTableGenerator._write_separator_row` (the string it writes). -/
def write_separator_row (cfg : TableConfig) (widths : List Nat) : String :=
  let separators := (cfg.columns.zip widths).map (fun cw =>
    get_alignment_separator cw.1.alignment cw.2)
  "|" ++ pyJoin "|" separators ++ "|\n"

/-- One line written by `MarkdownTableGenerator._write_data_rows` for one row. -/
def data_row_string (cfg : TableConfig) (widths : List Nat) (row : Row) : String :=
  let formatted_cells := (cfg.columns.zip widths).map (fun cw =>
    format_cell (cw.1.format_value (rowGet row cw.1.key (.str ""))) cw.2 cw.1.alignment)
  "| " ++ pyJoin " | " formatted_cells ++ " |\n"

/-- Ordering used by `sorted(data, key=...)` on the sort key's values.  The pipeline
compares only string values; a mixed comparison is a runtime `TypeError` in Python and
is modelled arbitrarily (the script configures no sort key, so this is never hit). -/
def valueLe (a b : Value) : Bool :=
  match a, b with
  | .str x, .str y => decide (x ≤ y)
  | _, _ => true

/-- The source's `MarkdownTableGenerator._write_data_rows` (the string it writes): an optional
stable ascending sort by the configured key (missing key defaulting to the empty
string), then one line per row in order. -/
def write_data_rows (cfg : TableConfig) (data : List Row) (widths : List Nat) :
    String :=
  let rows := match cfg.sort_by with
    | some k => data.insertionSort
        (fun x y => valueLe (rowGet x k (.str "")) (rowGet y k (.str "")) = true)
    | Option.none => data
  writes (rows.map (fun row => data_row_string cfg widths row))

/-- Python `str.rstrip("\n")`. -/
def rstrip_newlines (s : String) : String :=
  String.mk ((s.data.reverse.dropWhile (fun c => c == '\n')).reverse)

/-- The source's `MarkdownTableGenerator.generate_table`: empty or absent data renders as the
empty string; otherwise header, separator and data rows, with the trailing newline
run collapsed to exactly one. -/
def generate_table (cfg : TableConfig) (data : Option (List Row)) : String :=
  match data with
  | Option.none => ""
  | some d =>
    if d.isEmpty then "" else
      let widths := calculate_column_widths cfg d
      let table := write_header_row cfg widths ++ write_separator_row cfg widths
        ++ write_data_rows cfg d widths
      rstrip_newlines table ++ "\n"

/-- A resource's metadata, reduced to its `"methods"` entry (`Option.none` when the
metadata dict lacks the key, so `metadata.get("methods", [])` is `getD []`);
membership in `set(...)` coincides with membership in the list. -/
abbrev Metadata := Option (List String)

/-- The loop body of `CloudFormationDataTransformer.transform`: the row built for
one `(resource_type, metadata)` item, with `methods = set(metadata.get("methods", []))`
and one case-sensitive membership test per tracked operation. -/
def transformRow (p : String × Metadata) : Row :=
  [("resource", Value.str p.1),
   ("create", Value.bool ((p.2.getD []).contains "Create")),
   ("delete", Value.bool ((p.2.getD []).contains "Delete")),
   ("update", Value.bool ((p.2.getD []).contains "Update"))]

/-- The source's `CloudFormationDataTransformer.transform`: one row per resource in iteration
order; an absent or empty section yields no rows. -/
def transform (section_data : Option (List (String × Metadata))) : List Row :=
  match section_data with
  | Option.none => []
  | some l =>
    if l.isEmpty then [] else
      l.map transformRow

/-- The column configuration built in `main` (no sort key). -/
def table_config : TableConfig :=
  { columns := [
      { header := "Resource", key := "resource", alignment := "left" },
      { header := "Create", key := "create", alignment := "right",
        formatter := some bool_formatter },
      { header := "Delete", key := "delete", alignment := "right",
        formatter := some bool_formatter },
      { header := "Update", key := "update", alignment := "right",
        formatter := some bool_formatter }] }

/-- The loaded coverage catalog: its two named sections (`dict.get` yields
`Option.none` for an absent section). -/
structure Catalog where
  community : Option (List (String × Metadata))
  pro : Option (List (String × Metadata))

/-- Python `repr` of `COMMUNITY_HEADING_PATTERN`, as interpolated by the error
message's `!r`: quotes around the pattern text, backslashes doubled. -/
def COMMUNITY_HEADING_NAME : String := "'####\\\\s*Community image'"

/-- Python `repr` of `PRO_HEADING_PATTERN`: quotes around the pattern text,
backslashes doubled (the pattern is a raw string, so its first two characters are a
literal backslash and `n`). -/
def PRO_HEADING_NAME : String := "'\\\\n####\\\\s*Pro image'"

/-- The in-memory pipeline of `main` after the catalog and document are loaded:
transform both sections, render both tables, replace the community region (bounded by
the pro heading) and then the pro region (bounded by the next top-level heading or
the end of the document), and report the write decision: `some d` means the document
file is rewritten with `d`, `Option.none` that no write happens (the update equals
the original). -/
def mainPipeline (cfn_catalog : Catalog) (original_doc : List Char) :
    Except String (Option (List Char)) :=
  let community_data := transform cfn_catalog.community
  let pro_data := transform cfn_catalog.pro
  let community_table := generate_table table_config (some community_data)
  let pro_table := generate_table table_config (some pro_data)
  match replace_content_between communityStartM proEndM COMMUNITY_HEADING_NAME
      original_doc community_table.data with
  | .error e => .error e
  | .ok d1 =>
    match replace_content_between proStartM apiEndM PRO_HEADING_NAME d1
        pro_table.data with
    | .error e => .error e
    | .ok updated_doc =>
      .ok (if updated_doc = original_doc then Option.none else some updated_doc)

/-! ### Machinery lemmas: the scanning helpers compute what their doc comments say. -/

theorem charAt_eq_getD (s : List Char) (i : Nat) : charAt s i = s.getD i 'x' := by
  induction s generalizing i with
  | nil => simp [charAt, List.getD]
  | cons c cs ih =>
    cases i with
    | zero => simp [charAt, List.getD]
    | succ n =>
      exact ih n

theorem firstHitAux_eq_some (p : Nat → Bool) (fuel start j : Nat) :
    firstHitAux p fuel start = some j ↔
      start ≤ j ∧ j < start + fuel ∧ p j = true ∧
        ∀ m, start ≤ m → m < j → p m = false := by
  induction fuel generalizing start with
  | zero => simp [firstHitAux]; omega
  | succ n ih =>
    rw [firstHitAux]
    by_cases h : p start = true
    · rw [if_pos h]
      constructor
      · rintro h'
        cases h' with
        | refl => exact ⟨le_refl _, by omega, h, fun m hm hm' => absurd hm (by omega)⟩
      · rintro ⟨h1, _, h3, h4⟩
        rcases Nat.eq_or_lt_of_le h1 with rfl | hlt
        · rfl
        · exact absurd h (by simp [h4 start (le_refl _) hlt])
    · rw [if_neg h]
      rw [ih (start + 1)]
      constructor
      · rintro ⟨h1, h2, h3, h4⟩
        refine ⟨by omega, by omega, h3, fun m hm hm' => ?_⟩
        rcases Nat.eq_or_lt_of_le hm with rfl | hlt
        · simpa using h
        · exact h4 m hlt hm'
      · rintro ⟨h1, h2, h3, h4⟩
        have hj : start ≠ j := by
          rintro rfl; simp [h3] at h
        exact ⟨by omega, by omega, h3, fun m hm hm' => h4 m (by omega) hm'⟩

theorem firstHitAux_eq_none (p : Nat → Bool) (fuel start : Nat) :
    firstHitAux p fuel start = none ↔
      ∀ m, start ≤ m → m < start + fuel → p m = false := by
  induction fuel generalizing start with
  | zero => simp [firstHitAux]; omega
  | succ n ih =>
    rw [firstHitAux]
    by_cases h : p start = true
    · rw [if_pos h]
      constructor
      · rintro h'; cases h'
      · intro h4
        exact absurd h (by simp [h4 start (le_refl _) (by omega)])
    · rw [if_neg h]
      rw [ih (start + 1)]
      constructor
      · intro h4 m hm hm'
        rcases Nat.eq_or_lt_of_le hm with rfl | hlt
        · simpa using h
        · exact h4 m hlt (by omega)
      · intro h4 m hm hm'
        exact h4 m (by omega) (by omega)

theorem firstHit_eq_some (p : Nat → Bool) (n j : Nat) :
    firstHit p n = some j ↔
      j < n ∧ p j = true ∧ ∀ m, m < j → p m = false := by
  rw [firstHit, firstHitAux_eq_some]
  constructor
  · rintro ⟨_, h2, h3, h4⟩
    exact ⟨by omega, h3, fun m hm => h4 m (Nat.zero_le _) hm⟩
  · rintro ⟨h1, h2, h3⟩
    exact ⟨Nat.zero_le _, by omega, h2, fun m _ hm => h3 m hm⟩

theorem firstHit_eq_none (p : Nat → Bool) (n : Nat) :
    firstHit p n = none ↔ ∀ m, m < n → p m = false := by
  rw [firstHit, firstHitAux_eq_none]
  constructor
  · intro h m hm; exact h m (Nat.zero_le _) (by omega)
  · intro h m _ hm; exact h m (by omega)

theorem firstHitFrom_eq_some (p : Nat → Bool) (lo hi j : Nat) :
    firstHitFrom p lo hi = some j ↔
      lo ≤ j ∧ j ≤ hi ∧ p j = true ∧ ∀ m, lo ≤ m → m < j → p m = false := by
  rw [firstHitFrom, firstHitAux_eq_some]
  constructor
  · rintro ⟨h1, h2, h3, h4⟩
    exact ⟨h1, by omega, h3, h4⟩
  · rintro ⟨h1, h2, h3, h4⟩
    exact ⟨h1, by omega, h3, h4⟩

theorem firstHitFrom_eq_none (p : Nat → Bool) (lo hi : Nat) :
    firstHitFrom p lo hi = none ↔ ∀ m, lo ≤ m → m ≤ hi → p m = false := by
  rw [firstHitFrom, firstHitAux_eq_none]
  constructor
  · intro h m hm hm'; exact h m hm (by omega)
  · intro h m hm hm'; exact h m hm (by omega)

theorem lastHit_eq_some (p : Nat → Bool) (n k : Nat) :
    lastHit p n = some k ↔
      k < n ∧ p k = true ∧ ∀ m, k < m → m < n → p m = false := by
  induction n with
  | zero => simp [lastHit]
  | succ n ih =>
    rw [lastHit]
    by_cases h : p n = true
    · rw [if_pos h]
      constructor
      · rintro h'
        cases h' with
        | refl => exact ⟨by omega, h, fun m hm hm' => absurd hm (by omega)⟩
      · rintro ⟨h1, h2, h3⟩
        by_cases hk : k = n
        · rw [hk]
        · exact absurd h (by simp [h3 n (by omega) (by omega)])
    · rw [if_neg h]
      rw [ih]
      constructor
      · rintro ⟨h1, h2, h3⟩
        refine ⟨by omega, h2, fun m hm hm' => ?_⟩
        by_cases hm'' : m = n
        · subst hm''; simpa using h
        · exact h3 m hm (by omega)
      · rintro ⟨h1, h2, h3⟩
        have hk : k ≠ n := by rintro rfl; simp [h2] at h
        exact ⟨by omega, h2, fun m hm hm' => h3 m hm (by omega)⟩

theorem lastHit_eq_none (p : Nat → Bool) (n : Nat) :
    lastHit p n = none ↔ ∀ m, m < n → p m = false := by
  induction n with
  | zero => simp [lastHit]
  | succ n ih =>
    rw [lastHit]
    by_cases h : p n = true
    · rw [if_pos h]
      constructor
      · rintro h'; cases h'
      · intro h4; exact absurd h (by simp [h4 n (by omega)])
    · rw [if_neg h]
      rw [ih]
      constructor
      · intro h4 m hm
        by_cases hm' : m = n
        · subst hm'; simpa using h
        · exact h4 m (by omega)
      · intro h4 m hm; exact h4 m (by omega)

theorem wsRun_le_length (l : List Char) : wsRun l ≤ l.length := by
  induction l with
  | nil => simp [wsRun]
  | cons c cs ih =>
    rw [wsRun]
    by_cases h : isWs c
    · rw [if_pos h]; simp only [List.length_cons]; omega
    · rw [if_neg h]; simp

theorem wsRun_ws (l : List Char) (m : Nat) (hm : m < wsRun l) :
    isWs (l.getD m 'x') = true := by
  induction l generalizing m with
  | nil => simp [wsRun] at hm
  | cons c cs ih =>
    rw [wsRun] at hm
    by_cases h : isWs c
    · rw [if_pos h] at hm
      cases m with
      | zero => simpa [List.getD]
      | succ k => simpa [List.getD] using ih k (by omega)
    · rw [if_neg h] at hm; omega

theorem wsRun_stop (l : List Char) (hlt : wsRun l < l.length) :
    isWs (l.getD (wsRun l) 'x') = false := by
  induction l with
  | nil => simp [wsRun] at hlt
  | cons c cs ih =>
    by_cases h : isWs c
    · have hw : wsRun (c :: cs) = wsRun cs + 1 := by rw [wsRun, if_pos h]
      rw [hw] at hlt ⊢
      simp only [List.length_cons] at hlt
      simpa [List.getD] using ih (by omega)
    · have hw : wsRun (c :: cs) = 0 := by rw [wsRun, if_neg h]
      rw [hw]
      simpa [List.getD] using h

theorem wsRun_max (l : List Char) (k : Nat) (hk : ∀ m, m < k → isWs (l.getD m 'x') = true)
    (hkl : k ≤ l.length) : k ≤ wsRun l := by
  by_contra h
  push_neg at h
  have h1 := wsRun_stop l (by omega)
  have h2 := hk (wsRun l) h
  rw [h1] at h2
  simp at h2

/-! ### Renderer lemmas -/

theorem length_pyRepl (n : Nat) (c : Char) : (pyRepl n c).length = n := by
  simp [pyRepl]

theorem length_pyJoin (sep : String) (xs : List String) (h : xs ≠ []) :
    (pyJoin sep xs).length
      = (xs.map String.length).sum + sep.length * (xs.length - 1) := by
  induction xs with
  | nil => simp at h
  | cons x ys ih =>
    cases ys with
    | nil => simp [pyJoin]
    | cons y zs =>
      have h2 := ih (by simp)
      rw [pyJoin]
      simp only [String.length_append, List.map_cons, List.sum_cons, List.length_cons,
        Nat.add_sub_cancel] at h2 ⊢
      rw [h2, Nat.mul_succ]
      omega

theorem zip_map_self {α β : Type} (f : α → β) (l : List α) :
    l.zip (l.map f) = l.map (fun a => (a, f a)) := by
  induction l with
  | nil => rfl
  | cons x xs ih => simp [ih]

theorem foldl_max_init_le {α : Type} (f : α → Nat) (l : List α) (a : Nat) :
    a ≤ l.foldl (fun mw r => max mw (f r)) a := by
  induction l generalizing a with
  | nil => simp
  | cons x xs ih =>
    calc a ≤ max a (f x) := Nat.le_max_left _ _
    _ ≤ _ := ih _

theorem foldl_max_mem_le {α : Type} (f : α → Nat) (l : List α) (a : Nat)
    (r : α) (hr : r ∈ l) : f r ≤ l.foldl (fun mw r => max mw (f r)) a := by
  induction l generalizing a with
  | nil => simp at hr
  | cons x xs ih =>
    rcases List.mem_cons.mp hr with rfl | hr'
    · calc f r ≤ max a (f r) := Nat.le_max_right _ _
      _ ≤ _ := foldl_max_init_le f xs _
    · exact ih _ hr'

theorem foldl_max_attained {α : Type} (f : α → Nat) (l : List α) (a : Nat) :
    l.foldl (fun mw r => max mw (f r)) a = a ∨
      ∃ r ∈ l, l.foldl (fun mw r => max mw (f r)) a = f r := by
  induction l generalizing a with
  | nil => left; rfl
  | cons x xs ih =>
    rcases ih (max a (f x)) with h | ⟨r, hr, h⟩
    · rcases Nat.le_total (f x) a with hle | hle
      · left
        rw [List.foldl_cons] at *
        rw [h, Nat.max_eq_left hle]
      · right
        exact ⟨x, List.mem_cons_self _ _, by rw [List.foldl_cons, h, Nat.max_eq_right hle]⟩
    · right
      exact ⟨r, List.mem_cons_of_mem _ hr, h⟩

theorem length_rjust (s : String) (w : Nat) (h : s.length ≤ w) :
    (rjust s w).length = w := by
  simp [rjust, length_pyRepl]
  omega

theorem length_ljust (s : String) (w : Nat) (h : s.length ≤ w) :
    (ljust s w).length = w := by
  simp [ljust, length_pyRepl]
  omega

theorem length_center (s : String) (w : Nat) (h : s.length ≤ w) :
    (center s w).length = w := by
  have hb : (w - s.length) &&& w &&& 1 ≤ 1 := Nat.and_le_right
  have hb2 : (w - s.length) &&& w &&& 1 ≤ w - s.length :=
    le_trans Nat.and_le_left Nat.and_le_left
  simp only [center, String.length_append, length_pyRepl]
  omega

theorem length_format_cell (value : String) (w : Nat) (alignment : String)
    (h : value.length ≤ w) : (format_cell value w alignment).length = w := by
  rw [format_cell]
  by_cases h1 : alignment == "right"
  · rw [if_pos h1]; exact length_rjust _ _ h
  · rw [if_neg h1]
    by_cases h2 : alignment == "center"
    · rw [if_pos h2]; exact length_center _ _ h
    · rw [if_neg h2]; exact length_ljust _ _ h

/-- The width the source computes for one column. -/
def column_width (col : ColumnConfig) (data : List Row) : Nat :=
  data.foldl (fun max_width row =>
    max max_width (col.format_value (rowGet row col.key (.str ""))).length)
    col.header.length

theorem calculate_column_widths_eq (cfg : TableConfig) (data : List Row) :
    calculate_column_widths cfg data = cfg.columns.map (fun col => column_width col data) :=
  rfl

/-- C5.  The computed width of every column is the maximum of the header length and
all of the rows' formatted cell lengths (an upper bound that is attained), and every
padded cell rendered for that column — the header cell and each data cell — has
character length exactly the computed width. -/
theorem C5_width_correctness (cfg : TableConfig) (data : List Row) (_hne : data ≠ []) :
    ∀ col w, (col, w) ∈ cfg.columns.zip (calculate_column_widths cfg data) →
      col.header.length ≤ w ∧
      (∀ row ∈ data, (col.format_value (rowGet row col.key (.str ""))).length ≤ w) ∧
      (w = col.header.length ∨
        ∃ row ∈ data, w = (col.format_value (rowGet row col.key (.str ""))).length) ∧
      (format_cell col.header w col.alignment).length = w ∧
      (∀ row ∈ data,
        (format_cell (col.format_value (rowGet row col.key (.str "")))
          w col.alignment).length = w) := by
  intro col w hmem
  rw [calculate_column_widths_eq, zip_map_self] at hmem
  obtain ⟨c, hc, hcw⟩ := List.mem_map.mp hmem
  obtain ⟨rfl, rfl⟩ := Prod.mk.injEq .. ▸ Prod.ext_iff.mp hcw.symm
  set fL := fun row => (col.format_value (rowGet row col.key (.str ""))).length with hfL
  have hub : ∀ row ∈ data, fL row ≤ column_width col data :=
    fun row hrow => foldl_max_mem_le fL data col.header.length row hrow
  have hinit : col.header.length ≤ column_width col data :=
    foldl_max_init_le fL data col.header.length
  refine ⟨hinit, hub, ?_, ?_, ?_⟩
  · rcases foldl_max_attained fL data col.header.length with h | ⟨r, hr, h⟩
    · left; exact h
    · right; exact ⟨r, hr, h⟩
  · exact length_format_cell _ _ _ hinit
  · exact fun row hrow => length_format_cell _ _ _ (hub row hrow)

/-- C7, counterexample.  The claim predicts that a right-aligned column of computed
width 3 gets a separator cell of 3 dashes and a trailing colon, `|---:|`; the code
writes `w + 1` dashes, so the rendered separator row is `|----:|` instead. -/
theorem C7_counterexample :
    write_separator_row (TableConfig.mk [ColumnConfig.mk "H" "k" "right" Option.none]
      Option.none) [3] = "|----:|\n" ∧
    ("|----:|\n" : String) ≠ "|---:|\n" := by
  constructor
  · rfl
  · decide

/-- C7, amended.  The separator cell of a column is a single dash run encoding the
alignment: `w + 1` dashes followed by a colon for a right-aligned column, a colon
plus `w` dashes plus a colon for a center-aligned column, and `w` dashes with no
colon for any other (left/default) alignment, where `w` is the computed width. -/
theorem C7_separator_encoding (w : Nat) :
    (get_alignment_separator "right" w).data = List.replicate (w + 1) '-' ++ [':'] ∧
    (get_alignment_separator "center" w).data = ':' :: (List.replicate w '-' ++ [':']) ∧
    ∀ a : String, a ≠ "right" → a ≠ "center" →
      (get_alignment_separator a w).data = List.replicate w '-' := by
  refine ⟨?_, ?_, ?_⟩
  · simp [get_alignment_separator, pyRepl]
  · simp [get_alignment_separator, pyRepl]
  · intro a h1 h2
    have b1 : (a == "right") = false := by
      simpa using h1
    have b2 : (a == "center") = false := by
      simpa using h2
    rw [get_alignment_separator, if_neg (by simp [b1]), if_neg (by simp [b2])]
    simp [pyRepl]

/-- C8, counterexample.  In the data-row path a row that lacks the column's key
yields the empty-string default of `row.get(col.key, "")`; for a column without a
formatter, `format_value` then renders the empty string, not the `-` placeholder the
claim predicts for a missing value. -/
theorem C8_counterexample :
    (ColumnConfig.mk "H" "k" "left" Option.none).format_value
      (rowGet [] "k" (.str "")) = "" ∧
    ("" : String) ≠ "-" := by
  constructor
  · rfl
  · decide

/-- C8, amended.  The formatted cell value of the data-row path is the formatter
applied to the looked-up value when a formatter is configured; otherwise it is the
placeholder exactly when the looked-up value is the `None` sentinel, and `str(value)`
otherwise.  A row that lacks the key looks up the empty-string default, so without a
formatter it renders as the empty string, not the placeholder. -/
theorem C8_missing_value_rendering (row : Row) (col : ColumnConfig) :
    (∀ f, col.formatter = some f →
      col.format_value (rowGet row col.key (.str ""))
        = f (rowGet row col.key (.str ""))) ∧
    (col.formatter = Option.none →
      col.format_value (rowGet row col.key (.str ""))
        = (if rowGet row col.key (.str "") = Value.none then "-"
           else pyStr (rowGet row col.key (.str "")))) ∧
    ((∀ p ∈ row, p.1 ≠ col.key) →
      rowGet row col.key (.str "") = .str "" ∧
      (col.formatter = Option.none →
        col.format_value (rowGet row col.key (.str "")) = "")) := by
  refine ⟨?_, ?_, ?_⟩
  · intro f hf
    rw [ColumnConfig.format_value, hf]
  · intro hf
    rw [ColumnConfig.format_value, hf]
    by_cases h : rowGet row col.key (.str "") = Value.none
    · rw [if_pos h, if_pos (by simp [h])]
    · rw [if_neg h, if_neg (by simpa using h)]
  · intro hmiss
    have hfind : row.find? (fun p => p.1 == col.key) = Option.none := by
      rw [List.find?_eq_none]
      intro p hp
      simpa using hmiss p hp
    have hget : rowGet row col.key (.str "") = .str "" := by
      rw [rowGet, hfind]
    refine ⟨hget, fun hf => ?_⟩
    rw [ColumnConfig.format_value, hf, hget]
    rw [if_neg (by simp)]
    rfl

theorem length_row_line (cells : List String) (h : cells ≠ []) :
    ("| " ++ pyJoin " | " cells ++ " |\n").length
      = (cells.map String.length).sum + 3 * cells.length + 2 := by
  have h2 : ("| " : String).length = 2 := rfl
  have h3 : (" |\n" : String).length = 3 := rfl
  have h4 : (" | " : String).length = 3 := rfl
  have hne : cells.length ≠ 0 := fun h0 => h (List.length_eq_zero.mp h0)
  simp only [String.length_append, h2, h3, length_pyJoin _ _ h, h4]
  omega

theorem row_line_decomp (j : String) :
    ("| " ++ j ++ " |\n" : String) = ("| " ++ j ++ " ") ++ "|\n" := by
  have h1 : (" |\n" : String) = " " ++ "|\n" := rfl
  rw [h1, ← String.append_assoc]

/-- Every line of the rendered table ends with the two characters `|` and a newline;
concatenating such lines yields a string of that same shape. -/
theorem writes_pipe_newline (l : List String) (hne : l ≠ [])
    (h : ∀ x ∈ l, ∃ u : String, x = u ++ "|\n") :
    ∃ z : String, writes l = z ++ "|\n" := by
  induction l with
  | nil => simp at hne
  | cons x xs ih =>
    cases xs with
    | nil =>
      obtain ⟨u, hu⟩ := h x (by simp)
      exact ⟨u, by simp [writes, hu]⟩
    | cons y ys =>
      obtain ⟨z, hz⟩ := ih (by simp) (fun a ha => h a (List.mem_cons_of_mem _ ha))
      exact ⟨x ++ z, by rw [writes, hz, String.append_assoc]⟩

theorem rstrip_newlines_pipe (y : String) :
    rstrip_newlines (y ++ "|\n") = y ++ "|" := by
  apply String.ext
  show ((y ++ "|\n").data.reverse.dropWhile (fun c => c == '\n')).reverse = (y ++ "|").data
  have h1 : (y ++ "|\n").data = y.data ++ ['|', '\n'] := by simp
  have h2 : (y ++ "|").data = y.data ++ ['|'] := by simp
  rw [h1, h2]
  simp [List.dropWhile]

/-! ### Characterization of the compiled-pattern search -/

theorem composedOk_eq_some_iff (sM : List Char → Nat → Option Nat)
    (eM : List Char → Nat → Bool) (s : List Char) (i h q : Nat) :
    composedOk sM eM s i = some (h, q) ↔
      ∃ l k, sM s i = some l ∧
        lastHit (fun k => charAt s (i + l + k) == '\n'
          && (firstHitFrom (eM s) (i + l + k + 1) s.length).isSome)
          (wsRunLen s (i + l)) = some k ∧
        firstHitFrom (eM s) (i + l + k + 1) s.length = some q ∧
        h = i + l + k + 1 := by
  rw [composedOk]
  cases hsm : sM s i with
  | none => simp
  | some l =>
    simp only [Option.some.injEq]
    cases hlh : lastHit (fun k => charAt s (i + l + k) == '\n'
        && (firstHitFrom (eM s) (i + l + k + 1) s.length).isSome)
        (wsRunLen s (i + l)) with
    | none =>
      simp only []
      constructor
      · rintro h'; cases h'
      · rintro ⟨l', k, hl', hk, _, _⟩
        cases hl'
        rw [hlh] at hk
        cases hk
    | some k =>
      simp only []
      cases hff : firstHitFrom (eM s) (i + l + k + 1) s.length with
      | none =>
        simp only []
        constructor
        · rintro h'; cases h'
        · rintro ⟨l', k', hl', hk', hq', _⟩
          cases hl'
          rw [hlh] at hk'
          cases hk'
          rw [hff] at hq'
          cases hq'
      | some q' =>
        simp only [Option.some.injEq, Prod.mk.injEq]
        constructor
        · rintro ⟨rfl, rfl⟩
          exact ⟨l, k, rfl, hlh, hff, rfl⟩
        · rintro ⟨l', k', hl', hk', hq', hh⟩
          cases hl'
          rw [hlh] at hk'
          cases hk'
          rw [hff] at hq'
          cases hq'
          exact ⟨hh.symm, rfl⟩

theorem composedOk_isSome_iff (sM : List Char → Nat → Option Nat)
    (eM : List Char → Nat → Bool) (s : List Char) (i : Nat) :
    (composedOk sM eM s i).isSome = true ↔
      ∃ h q, composedOk sM eM s i = some (h, q) := by
  cases h : composedOk sM eM s i with
  | none => simp
  | some hq => cases hq with
    | mk a b => simp

theorem findMatch_eq_some_iff (sM : List Char → Nat → Option Nat)
    (eM : List Char → Nat → Bool) (s : List Char) (i h q : Nat) :
    findMatch sM eM s = some (i, h, q) ↔
      firstHit (fun i => lineStart s i && (composedOk sM eM s i).isSome)
        (s.length + 1) = some i ∧
      composedOk sM eM s i = some (h, q) := by
  rw [findMatch]
  cases hfh : firstHit (fun i => lineStart s i && (composedOk sM eM s i).isSome)
      (s.length + 1) with
  | none =>
    simp only []
    constructor
    · rintro h'; cases h'
    · rintro ⟨h1, _⟩; cases h1
  | some i' =>
    simp only [Option.some.injEq]
    cases hco : composedOk sM eM s i' with
    | none =>
      simp only []
      constructor
      · rintro h'; cases h'
      · rintro ⟨h1, h2⟩
        cases h1
        rw [hco] at h2
        cases h2
    | some hq' =>
      cases hq' with
      | mk a b =>
        simp only [Option.some.injEq, Prod.mk.injEq]
        constructor
        · rintro ⟨rfl, rfl, rfl⟩
          exact ⟨rfl, hco⟩
        · rintro ⟨h1, h2⟩
          cases h1
          rw [hco] at h2
          cases h2
          exact ⟨rfl, rfl, rfl⟩

theorem findMatch_eq_none_iff (sM : List Char → Nat → Option Nat)
    (eM : List Char → Nat → Bool) (s : List Char) :
    findMatch sM eM s = none ↔
      ∀ i, i ≤ s.length →
        (lineStart s i && (composedOk sM eM s i).isSome) = false := by
  constructor
  · intro hfm i hi
    cases hfh : firstHit (fun i => lineStart s i && (composedOk sM eM s i).isSome)
        (s.length + 1) with
    | none =>
      exact (firstHit_eq_none _ _).mp hfh i (by omega)
    | some i' =>
      have h2 := (firstHit_eq_some _ _ _).mp hfh
      have h3 : (composedOk sM eM s i').isSome = true := by
        rcases Bool.and_eq_true_iff.mp h2.2.1 with ⟨_, h4⟩
        exact h4
      obtain ⟨a, b, hab⟩ := (composedOk_isSome_iff _ _ _ _).mp h3
      have hsome := (findMatch_eq_some_iff sM eM s i' a b).mpr ⟨hfh, hab⟩
      rw [hfm] at hsome
      cases hsome
  · intro hall
    rw [findMatch]
    cases hfh : firstHit (fun i => lineStart s i && (composedOk sM eM s i).isSome)
        (s.length + 1) with
    | none => rfl
    | some i' =>
      have h2 := (firstHit_eq_some _ _ _).mp hfh
      have := hall i' (by omega)
      rw [this] at h2
      cases h2.2.1

theorem charAt_drop (s : List Char) (j m : Nat) :
    charAt (s.drop j) m = charAt s (j + m) := by
  rw [charAt, charAt, List.drop_drop]

theorem charAt_oob (s : List Char) (i : Nat) (h : s.length ≤ i) : charAt s i = 'x' := by
  rw [charAt, List.drop_of_length_le h]
  rfl

theorem lt_length_of_charAt_newline (s : List Char) (i : Nat)
    (h : charAt s i = '\n') : i < s.length := by
  by_contra hle
  rw [charAt_oob s i (by omega)] at h
  cases h

theorem parseTemplateAux_no_backslash (groups fuel : Nat) (ts : List Char)
    (hfuel : ts.length ≤ fuel) (h : ∀ c ∈ ts, c ≠ '\\') :
    parseTemplateAux groups fuel ts = .ok (ts.map TemplateItem.lit) := by
  induction fuel generalizing ts with
  | zero =>
    cases ts with
    | nil => rfl
    | cons c rest => simp at hfuel
  | succ n ih =>
    cases ts with
    | nil => rfl
    | cons c rest =>
      rw [parseTemplateAux]
      have hc : ¬(c == '\\') = true := by
        simpa using h c (List.mem_cons_self c rest)
      rw [if_neg hc,
        ih rest (by simp at hfuel; omega) (fun d hd => h d (List.mem_cons_of_mem c hd))]
      rfl

theorem parseTemplate_no_backslash (groups : Nat) (ts : List Char)
    (h : ∀ c ∈ ts, c ≠ '\\') :
    parseTemplate groups ts = .ok (ts.map TemplateItem.lit) :=
  parseTemplateAux_no_backslash groups ts.length ts (le_refl _) h

theorem expandItems_map_lit (g0 g1 g2 : List Char) (ts : List Char) :
    expandItems g0 g1 g2 (ts.map TemplateItem.lit) = ts := by
  induction ts with
  | nil => rfl
  | cons c cs ih => simp [expandItems, ih]

/-- A template error never masquerades as the section-not-found error: the two
messages start with different characters. -/
theorem re_error_ne_section (e nm : String) :
    ("re.error: " ++ e) ≠ ("Could not find section with heading pattern: " ++ nm) := by
  intro hcon
  have h2 : ("re.error: " ++ e).data
      = ("Could not find section with heading pattern: " ++ nm).data := by
    rw [hcon]
  rw [String.data_append, String.data_append] at h2
  have h3 : (("re.error: " : String).data ++ e.data).headD 'x' = 'r' := rfl
  rw [h2] at h3
  have h4 : (("Could not find section with heading pattern: " : String).data
      ++ nm.data).headD 'x' = 'C' := rfl
  rw [h4] at h3
  cases h3

/-- When the compiled pattern matches at `(i, h, q)` and neither the preserved
heading nor the block contains a backslash, the replacement template is all
literals, so the substitution replaces the span `[i, q)` with the heading slice
`[i, h)` followed by the block, verbatim. -/
theorem replace_ok_eq (sM : List Char → Nat → Option Nat)
    (eM : List Char → Nat → Bool) (nm : String) (s block : List Char)
    (i h q : Nat) (hfm : findMatch sM eM s = some (i, h, q))
    (hnbH : ∀ c ∈ (s.drop i).take (h - i), c ≠ '\\')
    (hnbB : ∀ c ∈ block, c ≠ '\\') :
    replace_content_between sM eM nm s block
      = .ok (s.take i ++ ((s.drop i).take (h - i) ++ block) ++ s.drop q) := by
  have hrepl : (if block.isEmpty then (s.drop i).take (h - i)
      else (s.drop i).take (h - i) ++ block) = (s.drop i).take (h - i) ++ block := by
    cases hb : block.isEmpty with
    | true =>
      rw [if_pos (by simp [hb])]
      have hbe : block = [] := List.isEmpty_iff.mp (by simp [hb])
      subst hbe
      simp
    | false =>
      rw [if_neg (by simp [hb])]
  have hnb2 : ∀ c ∈ (s.drop i).take (h - i) ++ block, c ≠ '\\' := by
    intro c hc
    rcases List.mem_append.mp hc with hc1 | hc2
    · exact hnbH c hc1
    · exact hnbB c hc2
  have hparse := parseTemplate_no_backslash 2 _ hnb2
  rw [replace_content_between, hfm]
  simp only [hrepl, hparse, expandItems_map_lit]

/-- C2, counterexample.  The block is not inserted verbatim: `pattern.sub` treats
the replacement as a template, so a block containing a backreference expands it to
the text of group 1 (the heading) instead of keeping it literally, and a block
containing an invalid escape makes the program raise `re.error` instead of
substituting at all. -/
theorem C2_counterexample :
    replace_content_between (litMatchLen "### A".data) (litMatchAt "### B".data)
      "### A" "### A\nold\n### B\n".data "x\\1y\n".data
      = .ok "### A\nx### A\ny\n### B\n".data ∧
    "### A\nx### A\ny\n### B\n".data
      ≠ "### A\nold\n### B\n".data.take 6 ++ "x\\1y\n".data
        ++ "### A\nold\n### B\n".data.drop 10 ∧
    replace_content_between (litMatchLen "### A".data) (litMatchAt "### B".data)
      "### A" "### A\nold\n### B\n".data "x\\qy\n".data
      = .error "re.error: bad escape" := by
  refine ⟨rfl, by decide, rfl⟩

/-- C2, amended.  When the composed pattern matches at `(i, h, q)` and neither the
matched heading nor the block contains a backslash — so the replacement template is
pure literal text — the replacer succeeds with the document in which exactly the
captured span `[h, q)` is replaced by the block: the heading `[i, h)` (a line-start
match of the start pattern, a whitespace run, and its closing newline, at the
leftmost position admitting a complete match) is preserved verbatim, `q` is the
first position at or after `h` where the end pattern matches, and every byte before
the heading and from the boundary on — in particular any later occurrence of the
start pattern — is unchanged.  For blocks or headings with backslashes the template
expansion of the counterexample applies instead. -/
theorem C2_replace_frame (sM : List Char → Nat → Option Nat)
    (eM : List Char → Nat → Bool) (nm : String) (s block : List Char) (i h q : Nat)
    (hfm : findMatch sM eM s = some (i, h, q))
    (hnbH : ∀ c ∈ (s.drop i).take (h - i), c ≠ '\\')
    (hnbB : ∀ c ∈ block, c ≠ '\\') :
    replace_content_between sM eM nm s block
      = .ok (s.take h ++ block ++ s.drop q) ∧
    ∃ l k,
      lineStart s i = true ∧
      sM s i = some l ∧
      (∀ m, m < k → isWs (charAt s (i + l + m)) = true) ∧
      charAt s (i + l + k) = '\n' ∧
      h = i + l + k + 1 ∧
      h ≤ s.length ∧
      (∀ j, j < i → (lineStart s j && (composedOk sM eM s j).isSome) = false) ∧
      h ≤ q ∧ q ≤ s.length ∧ eM s q = true ∧
      (∀ m, h ≤ m → m < q → eM s m = false) ∧
      (s.take h ++ block ++ s.drop q).take h = s.take h ∧
      (s.take h ++ block ++ s.drop q).drop (h + block.length) = s.drop q := by
  obtain ⟨hfh, hco⟩ := (findMatch_eq_some_iff sM eM s i h q).mp hfm
  obtain ⟨l, k, hsm, hlh, hff, hh⟩ := (composedOk_eq_some_iff sM eM s i h q).mp hco
  obtain ⟨hfh1, hfh2, hfh3⟩ := (firstHit_eq_some _ _ _).mp hfh
  obtain ⟨hls, _⟩ := Bool.and_eq_true_iff.mp hfh2
  obtain ⟨hk1, hk2, hk3⟩ := (lastHit_eq_some _ _ _).mp hlh
  obtain ⟨hnl, _⟩ := Bool.and_eq_true_iff.mp hk2
  have hnl' : charAt s (i + l + k) = '\n' := beq_iff_eq.mp hnl
  obtain ⟨hq1, hq2, hq3, hq4⟩ := (firstHitFrom_eq_some _ _ _ _).mp hff
  have hhlen : h ≤ s.length := by
    have := lt_length_of_charAt_newline s (i + l + k) hnl'
    omega
  have hsplit : s.take h = s.take i ++ (s.drop i).take (h - i) := by
    have h1 := List.take_add s i (h - i)
    rw [show i + (h - i) = h by omega] at h1
    exact h1
  have hlen : (s.take h).length = h := List.length_take_of_le hhlen
  constructor
  · rw [replace_ok_eq sM eM nm s block i h q hfm hnbH hnbB, hsplit]
    simp [List.append_assoc]
  · refine ⟨l, k, hls, hsm, ?_, hnl', hh, hhlen, ?_, by omega, hq2, hq3, ?_, ?_, ?_⟩
    · intro m hm
      have hws := wsRun_ws (s.drop (i + l)) m (by
        rw [wsRunLen] at hk1
        omega)
      rw [← charAt_eq_getD, charAt_drop] at hws
      exact hws
    · exact fun j hj => hfh3 j hj
    · intro m hm1 hm2
      exact hq4 m (by omega) hm2
    · rw [List.append_assoc]
      exact List.take_left' hlen
    · exact List.drop_left' (by simp [hlen])

/-! ### Transfer lemmas: how the scanning primitives behave on the updated document -/

theorem charAt_cons_succ (a : Char) (l : List Char) (m : Nat) :
    charAt (a :: l) (m + 1) = charAt l m := rfl

theorem charAt_append_left (A B : List Char) (m : Nat) (h : m < A.length) :
    charAt (A ++ B) m = charAt A m := by
  induction A generalizing m with
  | nil => simp at h
  | cons a as ih =>
    cases m with
    | zero => rfl
    | succ n =>
      rw [List.cons_append, charAt_cons_succ, charAt_cons_succ]
      exact ih n (by simpa using h)

theorem charAt_append_right (A B : List Char) (m : Nat) (h : A.length ≤ m) :
    charAt (A ++ B) m = charAt B (m - A.length) := by
  induction A generalizing m with
  | nil => simp
  | cons a as ih =>
    cases m with
    | zero => simp at h
    | succ n =>
      rw [List.cons_append, charAt_cons_succ, ih n (by simpa using h)]
      simp only [List.length_cons]
      congr 1
      omega

theorem charAt_take (s : List Char) (n m : Nat) (h : m < n) :
    charAt (s.take n) m = charAt s m := by
  induction s generalizing n m with
  | nil => simp
  | cons c cs ih =>
    cases n with
    | zero => omega
    | succ n' =>
      cases m with
      | zero => rfl
      | succ m' =>
        rw [List.take_succ_cons, charAt_cons_succ, charAt_cons_succ]
        exact ih n' m' (by omega)

theorem isPrefixOf_append_of_le (pat A B : List Char) (h : pat.length ≤ A.length) :
    pat.isPrefixOf (A ++ B) = pat.isPrefixOf A := by
  induction pat generalizing A with
  | nil => simp
  | cons p ps ih =>
    cases A with
    | nil => simp at h
    | cons a as =>
      rw [List.cons_append]
      show (p == a && ps.isPrefixOf (as ++ B)) = (p == a && ps.isPrefixOf as)
      rw [ih as (by simpa using h)]

theorem isPrefixOf_take (pat Y : List Char) (n : Nat) (h : pat.length ≤ n) :
    pat.isPrefixOf (Y.take n) = pat.isPrefixOf Y := by
  induction pat generalizing Y n with
  | nil => simp
  | cons p ps ih =>
    cases n with
    | zero => simp at h
    | succ n' =>
      cases Y with
      | nil => simp
      | cons y ys =>
        rw [List.take_succ_cons]
        show (p == y && ps.isPrefixOf (ys.take n')) = (p == y && ps.isPrefixOf ys)
        rw [ih ys n' (by simpa using h)]

theorem isPrefixOf_true_length_le (pat Y : List Char) (h : pat.isPrefixOf Y = true) :
    pat.length ≤ Y.length := by
  induction pat generalizing Y with
  | nil => simp
  | cons p ps ih =>
    cases Y with
    | nil => simp at h
    | cons y ys =>
      have h2 : ps.isPrefixOf ys = true := by
        have := h
        rw [show (p :: ps).isPrefixOf (y :: ys) = (p == y && ps.isPrefixOf ys) from rfl]
          at this
        exact (Bool.and_eq_true_iff.mp this).2
      simpa using ih ys h2

theorem wsRunLen_ws (s : List Char) (i m : Nat) (hm : m < wsRunLen s i) :
    isWs (charAt s (i + m)) = true := by
  have := wsRun_ws (s.drop i) m (by rw [wsRunLen] at hm; exact hm)
  rw [← charAt_eq_getD, charAt_drop] at this
  exact this

theorem wsRunLen_le_of_not_ws (s : List Char) (i R' : Nat)
    (h : isWs (charAt s (i + R')) = false) : wsRunLen s i ≤ R' := by
  by_contra hlt
  rw [wsRunLen_ws s i R' (by omega)] at h
  cases h

theorem wsRunLen_max (s : List Char) (i k : Nat)
    (hk : ∀ m, m < k → isWs (charAt s (i + m)) = true) (hlen : i + k ≤ s.length) :
    k ≤ wsRunLen s i := by
  rw [wsRunLen]
  apply wsRun_max
  · intro m hm
    rw [← charAt_eq_getD, charAt_drop]
    exact hk m hm
  · simp only [List.length_drop]
    omega

section Updated

variable (s block : List Char) (h q : Nat)

/-- The once-updated document: heading kept, block in place of the captured span. -/
def updatedDoc : List Char :=
  s.take h ++ block ++ s.drop q

theorem updatedDoc_length (hh : h ≤ s.length) (_hq : q ≤ s.length) :
    (updatedDoc s block h q).length = h + block.length + (s.length - q) := by
  simp [updatedDoc, List.length_take_of_le hh]
  omega

theorem updatedDoc_take_h (hh : h ≤ s.length) :
    (updatedDoc s block h q).take h = s.take h := by
  rw [updatedDoc, List.append_assoc]
  exact List.take_left' (List.length_take_of_le hh)

theorem updatedDoc_drop_end (hh : h ≤ s.length) :
    (updatedDoc s block h q).drop (h + block.length) = s.drop q := by
  rw [updatedDoc]
  exact List.drop_left' (by simp [List.length_take_of_le hh])

theorem updatedDoc_charAt_lt (m : Nat) (hm : m < h) (hh : h ≤ s.length) :
    charAt (updatedDoc s block h q) m = charAt s m := by
  rw [updatedDoc, List.append_assoc,
    charAt_append_left _ _ m (by rw [List.length_take_of_le hh]; exact hm)]
  exact charAt_take s h m hm

theorem updatedDoc_charAt_block (d : Nat) (hd : d < block.length) (hh : h ≤ s.length) :
    charAt (updatedDoc s block h q) (h + d) = charAt block d := by
  rw [updatedDoc, List.append_assoc,
    charAt_append_right _ _ (h + d) (by rw [List.length_take_of_le hh]; omega),
    List.length_take_of_le hh]
  rw [show h + d - h = d by omega]
  exact charAt_append_left _ _ d hd

theorem updatedDoc_drop_le (j : Nat) (hj : j ≤ h) (hh : h ≤ s.length) :
    (updatedDoc s block h q).drop j
      = (s.drop j).take (h - j) ++ (block ++ s.drop q) := by
  rw [updatedDoc, List.append_assoc, List.drop_append_eq_append_drop,
    List.length_take_of_le hh, show j - h = 0 by omega, List.drop_zero,
    List.drop_take]

theorem updatedDoc_drop_block (d : Nat) (hd : d ≤ block.length) (hh : h ≤ s.length) :
    (updatedDoc s block h q).drop (h + d) = block.drop d ++ s.drop q := by
  have h1 : (updatedDoc s block h q).drop h = block ++ s.drop q := by
    rw [updatedDoc, List.append_assoc]
    exact List.drop_left' (List.length_take_of_le hh)
  have h2 : (updatedDoc s block h q).drop (h + d)
      = ((updatedDoc s block h q).drop h).drop d := by
    rw [List.drop_drop]
  rw [h2, h1, List.drop_append_eq_append_drop, show d - block.length = 0 by omega,
    List.drop_zero]

theorem updatedDoc_isPrefixOf_lt (pat : List Char) (j : Nat)
    (hj : j + pat.length ≤ h) (hh : h ≤ s.length) :
    pat.isPrefixOf ((updatedDoc s block h q).drop j)
      = pat.isPrefixOf (s.drop j) := by
  rw [updatedDoc_drop_le s block h q j (by omega) hh,
    isPrefixOf_append_of_le _ _ _ (by
      rw [List.length_take, List.length_drop]
      omega),
    isPrefixOf_take _ _ _ (by omega)]

theorem updatedDoc_lineStart (j : Nat) (hj : j ≤ h) (hh : h ≤ s.length) :
    lineStart (updatedDoc s block h q) j = lineStart s j := by
  cases j with
  | zero => rfl
  | succ n =>
    rw [lineStart, lineStart]
    simp only [Nat.add_sub_cancel]
    rw [updatedDoc_charAt_lt s block h q n (by omega) hh]

end Updated

/-- Unpacking a literal start-pattern match. -/
theorem litMatchLen_eq_some (pat s : List Char) (i l : Nat) :
    litMatchLen pat s i = some l ↔
      pat.isPrefixOf (s.drop i) = true ∧ l = pat.length := by
  rw [litMatchLen]
  by_cases hpre : pat.isPrefixOf (s.drop i) = true
  · rw [if_pos hpre]
    constructor
    · rintro h'; exact ⟨hpre, (Option.some.inj h').symm⟩
    · rintro ⟨_, rfl⟩; rfl
  · rw [if_neg hpre]
    constructor
    · rintro h'; cases h'
    · rintro ⟨h1, _⟩; exact absurd h1 hpre

/-- Where the compiled pattern built from two literal patterns matches in the
once-updated document: at the same heading, with the same group 1, and with the
captured span ending exactly at the end of the inserted block — provided the block is
non-empty, does not begin with whitespace, and contains no (possibly straddling)
match of the end pattern before its end. -/
theorem findMatch_updatedDoc (pS pE s block : List Char) (i h q : Nat)
    (hfm : findMatch (litMatchLen pS) (litMatchAt pE) s = some (i, h, q))
    (hblk : block ≠ [])
    (hws : isWs (charAt block 0) = false)
    (hnoE : ∀ d, d < block.length →
      pE.isPrefixOf (block.drop d ++ s.drop q) = false) :
    findMatch (litMatchLen pS) (litMatchAt pE) (updatedDoc s block h q)
      = some (i, h, h + block.length) := by
  obtain ⟨hfh, hco⟩ := (findMatch_eq_some_iff _ _ s i h q).mp hfm
  obtain ⟨l, k, hsm, hlh, hff, hh⟩ := (composedOk_eq_some_iff _ _ s i h q).mp hco
  obtain ⟨hfh1, hfh2, hfh3⟩ := (firstHit_eq_some _ _ _).mp hfh
  obtain ⟨hls, _⟩ := Bool.and_eq_true_iff.mp hfh2
  obtain ⟨hpre, hl⟩ := (litMatchLen_eq_some pS s i l).mp hsm
  obtain ⟨hk1, hk2, hk3⟩ := (lastHit_eq_some _ _ _).mp hlh
  obtain ⟨hnlb, _⟩ := Bool.and_eq_true_iff.mp hk2
  have hnl : charAt s (i + l + k) = '\n' := beq_iff_eq.mp hnlb
  obtain ⟨hq1, hq2, hq3, hq4⟩ := (firstHitFrom_eq_some _ _ _ _).mp hff
  have hhlen : h ≤ s.length := by
    have := lt_length_of_charAt_newline s (i + l + k) hnl
    omega
  have hblen : 0 < block.length := List.length_pos.mpr hblk
  have hil : i + l < h := by omega
  have hRlen : (updatedDoc s block h q).length
      = h + block.length + (s.length - q) :=
    updatedDoc_length s block h q hhlen hq2
  have hchR : charAt (updatedDoc s block h q) h = charAt block 0 := by
    simpa using updatedDoc_charAt_block s block h q 0 hblen hhlen
  -- Step A: the literal start pattern still matches at i with the same length.
  have hsmR : litMatchLen pS (updatedDoc s block h q) i = some l := by
    rw [litMatchLen_eq_some]
    refine ⟨?_, hl⟩
    rw [updatedDoc_isPrefixOf_lt s block h q pS i (by omega) hhlen]
    exact hpre
  -- Step B: the whitespace run after the start match ends exactly at the newline.
  have hwsR : wsRunLen (updatedDoc s block h q) (i + l) = k + 1 := by
    apply le_antisymm
    · apply wsRunLen_le_of_not_ws
      rw [show i + l + (k + 1) = h by omega, hchR]
      exact hws
    · apply wsRunLen_max
      · intro m hm
        rw [updatedDoc_charAt_lt s block h q (i + l + m) (by omega) hhlen]
        by_cases hmk : m = k
        · subst hmk
          rw [hnl]
          rfl
        · exact wsRunLen_ws s (i + l) m (by omega)
      · omega
  -- Step C: the end pattern matches right after the block.
  have hendR : litMatchAt pE (updatedDoc s block h q) (h + block.length) = true := by
    rw [litMatchAt, updatedDoc_drop_end s block h q hhlen]
    exact hq3
  -- Step D: the end pattern does not match inside the block.
  have hinR : ∀ d, d < block.length →
      litMatchAt pE (updatedDoc s block h q) (h + d) = false := by
    intro d hd
    rw [litMatchAt, updatedDoc_drop_block s block h q d (by omega) hhlen]
    exact hnoE d hd
  -- Step E: the non-greedy scan from the heading stops at the end of the block.
  have hffR : firstHitFrom (litMatchAt pE (updatedDoc s block h q)) (i + l + k + 1)
      (updatedDoc s block h q).length = some (h + block.length) := by
    rw [firstHitFrom_eq_some]
    refine ⟨by omega, by omega, hendR, ?_⟩
    intro m hm1 hm2
    have := hinR (m - h) (by omega)
    rw [show h + (m - h) = m by omega] at this
    exact this
  -- Step F: the greedy whitespace backtracking picks the same k.
  have hcondR : (charAt (updatedDoc s block h q) (i + l + k) == '\n'
      && (firstHitFrom (litMatchAt pE (updatedDoc s block h q)) (i + l + k + 1)
        (updatedDoc s block h q).length).isSome) = true := by
    rw [updatedDoc_charAt_lt s block h q (i + l + k) (by omega) hhlen, hnl, hffR]
    rfl
  have hlhR : lastHit (fun k => charAt (updatedDoc s block h q) (i + l + k) == '\n'
      && (firstHitFrom (litMatchAt pE (updatedDoc s block h q)) (i + l + k + 1)
        (updatedDoc s block h q).length).isSome)
      (wsRunLen (updatedDoc s block h q) (i + l)) = some k := by
    rw [hwsR, lastHit, if_pos hcondR]
  -- Step G: the composed pattern matches at i in the updated document.
  have hcoR : composedOk (litMatchLen pS) (litMatchAt pE) (updatedDoc s block h q) i
      = some (h, h + block.length) := by
    rw [composedOk_eq_some_iff]
    exact ⟨l, k, hsmR, hlhR, hffR, by omega⟩
  -- Step H: no earlier line start admits a composed match in the updated document.
  have hnotR : ∀ j, j < i →
      (lineStart (updatedDoc s block h q) j
        && (composedOk (litMatchLen pS) (litMatchAt pE)
          (updatedDoc s block h q) j).isSome) = false := by
    intro j hj
    have hlsR : lineStart (updatedDoc s block h q) j = lineStart s j :=
      updatedDoc_lineStart s block h q j (by omega) hhlen
    have hpredS := hfh3 j hj
    cases hlsj : lineStart s j with
    | false =>
      rw [hlsR, hlsj]
      rfl
    | true =>
      rw [hlsj, Bool.true_and] at hpredS
      have hcoS : composedOk (litMatchLen pS) (litMatchAt pE) s j = none := by
        cases hcs : composedOk (litMatchLen pS) (litMatchAt pE) s j with
        | none => rfl
        | some hq' => rw [hcs] at hpredS; cases hpredS
      rw [hlsR, hlsj, Bool.true_and]
      suffices hcoRj : composedOk (litMatchLen pS) (litMatchAt pE)
          (updatedDoc s block h q) j = none by
        rw [hcoRj]
        rfl
      cases hsmj : litMatchLen pS (updatedDoc s block h q) j with
      | none => rw [composedOk, hsmj]
      | some l' =>
        obtain ⟨hprej, hl'⟩ :=
          (litMatchLen_eq_some pS (updatedDoc s block h q) j l').mp hsmj
        subst hl'
        have hjl : j + pS.length < h := by omega
        have hprejS : pS.isPrefixOf (s.drop j) = true := by
          rw [updatedDoc_isPrefixOf_lt s block h q pS j (by omega) hhlen] at hprej
          exact hprej
        have hsmjS : litMatchLen pS s j = some pS.length :=
          (litMatchLen_eq_some pS s j pS.length).mpr ⟨hprejS, rfl⟩
        have hlhRj : lastHit (fun k =>
            charAt (updatedDoc s block h q) (j + pS.length + k) == '\n'
            && (firstHitFrom (litMatchAt pE (updatedDoc s block h q))
              (j + pS.length + k + 1) (updatedDoc s block h q).length).isSome)
            (wsRunLen (updatedDoc s block h q) (j + pS.length)) = none := by
          rw [lastHit_eq_none]
          intro m hm
          by_contra hP
          rw [Bool.not_eq_false, Bool.and_eq_true_iff] at hP
          obtain ⟨hPnl, _⟩ := hP
          have hPnl' : charAt (updatedDoc s block h q) (j + pS.length + m) = '\n' :=
            beq_iff_eq.mp hPnl
          rcases Nat.lt_trichotomy (j + pS.length + m) h with hcase | hcase | hcase
          · -- a viable candidate below h would have matched at j in s already
            have hnlS : charAt s (j + pS.length + m) = '\n' := by
              rw [← updatedDoc_charAt_lt s block h q (j + pS.length + m) hcase hhlen]
              exact hPnl'
            have hwsS : ∀ m', m' < m →
                isWs (charAt s (j + pS.length + m')) = true := by
              intro m' hm'
              have := wsRunLen_ws (updatedDoc s block h q) (j + pS.length) m'
                (by omega)
              rw [updatedDoc_charAt_lt s block h q (j + pS.length + m')
                (by omega) hhlen] at this
              exact this
            have hmrun : m < wsRunLen s (j + pS.length) := by
              have hmax : m + 1 ≤ wsRunLen s (j + pS.length) := by
                apply wsRunLen_max
                · intro m' hm'
                  by_cases hmm : m' = m
                  · subst hmm; rw [hnlS]; rfl
                  · exact hwsS m' (by omega)
                · omega
              omega
            have hffS : firstHitFrom (litMatchAt pE s) (j + pS.length + m + 1)
                s.length ≠ none := by
              intro hn
              have := (firstHitFrom_eq_none _ _ _).mp hn q (by omega) hq2
              rw [hq3] at this
              cases this
            have hPS : (charAt s (j + pS.length + m) == '\n'
                && (firstHitFrom (litMatchAt pE s) (j + pS.length + m + 1)
                  s.length).isSome) = true := by
              rw [hnlS, Option.ne_none_iff_isSome] at *
              rw [hffS]
              rfl
            have hlhS : lastHit (fun k => charAt s (j + pS.length + k) == '\n'
                && (firstHitFrom (litMatchAt pE s) (j + pS.length + k + 1)
                  s.length).isSome)
                (wsRunLen s (j + pS.length)) ≠ none := by
              intro hn
              have := (lastHit_eq_none _ _).mp hn m hmrun
              rw [hPS] at this
              cases this
            rcases hlhcase : lastHit (fun k => charAt s (j + pS.length + k) == '\n'
                && (firstHitFrom (litMatchAt pE s) (j + pS.length + k + 1)
                  s.length).isSome)
                (wsRunLen s (j + pS.length)) with _ | k''
            · exact hlhS hlhcase
            · obtain ⟨_, hk''2, _⟩ := (lastHit_eq_some _ _ _).mp hlhcase
              obtain ⟨_, hk''ff⟩ := Bool.and_eq_true_iff.mp hk''2
              rcases hffcase : firstHitFrom (litMatchAt pE s)
                  (j + pS.length + k'' + 1) s.length with _ | q''
              · rw [hffcase] at hk''ff; cases hk''ff
              · have hcon : composedOk (litMatchLen pS) (litMatchAt pE) s j
                    = some (j + pS.length + k'' + 1, q'') := by
                  rw [composedOk_eq_some_iff]
                  exact ⟨pS.length, k'', hsmjS, hlhcase, hffcase, rfl⟩
                rw [hcoS] at hcon
                cases hcon
          · -- the candidate newline cannot be the first block character
            rw [hcase, hchR] at hPnl'
            rw [hPnl'] at hws
            cases hws
          · -- nor can the whitespace run cross into the block
            have := wsRunLen_ws (updatedDoc s block h q) (j + pS.length)
              (h - (j + pS.length)) (by omega)
            rw [show j + pS.length + (h - (j + pS.length)) = h by omega, hchR]
              at this
            rw [this] at hws
            cases hws
        rcases hcj : composedOk (litMatchLen pS) (litMatchAt pE)
            (updatedDoc s block h q) j with _ | ⟨⟨h2, q2⟩⟩
        · rfl
        · exfalso
          obtain ⟨l2, k2, hsm2, hlh2, _, _⟩ :=
            (composedOk_eq_some_iff _ _ _ _ _ _).mp hcj
          rw [hsmj] at hsm2
          have hl2 : l2 = pS.length := (Option.some.inj hsm2).symm
          subst hl2
          rw [hlhRj] at hlh2
          cases hlh2
  -- assemble the leftmost search on the updated document
  have hfhR : firstHit (fun j => lineStart (updatedDoc s block h q) j
      && (composedOk (litMatchLen pS) (litMatchAt pE)
        (updatedDoc s block h q) j).isSome)
      ((updatedDoc s block h q).length + 1) = some i := by
    rw [firstHit_eq_some]
    refine ⟨by omega, ?_, hnotR⟩
    rw [updatedDoc_lineStart s block h q i (by omega) hhlen, hls, Bool.true_and,
      hcoR]
    rfl
  rw [findMatch_eq_some_iff]
  exact ⟨hfhR, hcoR⟩

/-- C3, counterexample.  Replacement is not idempotent for every document and block:
with start pattern `A`, end pattern `B`, document `A\nxxBy` and block `B`, the first
replacement yields `A\nBBy`, but replacing again captures the empty span in front of
the block's own `B` and yields `A\nBBBy` ≠ `A\nBBy`. -/
theorem C3_counterexample :
    replace_content_between (litMatchLen "A".data) (litMatchAt "B".data) "A"
      "A\nxxBy".data "B".data = .ok "A\nBBy".data ∧
    replace_content_between (litMatchLen "A".data) (litMatchAt "B".data) "A"
      "A\nBBy".data "B".data = .ok "A\nBBBy".data ∧
    "A\nBBBy".data ≠ "A\nBBy".data := by
  refine ⟨rfl, rfl, by decide⟩

/-- C3, amended.  Replacement with literal start/end patterns is idempotent provided
the matched heading and the block contain no backslash (so the template expansion of
`pattern.sub` is literal), the block is non-empty, does not begin with a whitespace
character, and the end pattern does not match inside the block or straddling its
end: the first application yields the updated document, and applying the same block
to the updated document returns it unchanged. -/
theorem C3_idempotent_for_clean_blocks (pS pE : List Char) (nm : String)
    (s block : List Char) (i h q : Nat)
    (hfm : findMatch (litMatchLen pS) (litMatchAt pE) s = some (i, h, q))
    (hnbH : ∀ c ∈ (s.drop i).take (h - i), c ≠ '\\')
    (hnbB : ∀ c ∈ block, c ≠ '\\')
    (hblk : block ≠ [])
    (hws : isWs (charAt block 0) = false)
    (hnoE : ∀ d, d < block.length →
      pE.isPrefixOf (block.drop d ++ s.drop q) = false) :
    replace_content_between (litMatchLen pS) (litMatchAt pE) nm s block
      = .ok (updatedDoc s block h q) ∧
    replace_content_between (litMatchLen pS) (litMatchAt pE) nm
      (updatedDoc s block h q) block = .ok (updatedDoc s block h q) := by
  obtain ⟨hfh, hco⟩ := (findMatch_eq_some_iff _ _ s i h q).mp hfm
  obtain ⟨l, k, hsm, hlh, hff, hh⟩ := (composedOk_eq_some_iff _ _ s i h q).mp hco
  obtain ⟨hk1, hk2, hk3⟩ := (lastHit_eq_some _ _ _).mp hlh
  obtain ⟨hnlb, _⟩ := Bool.and_eq_true_iff.mp hk2
  have hnl : charAt s (i + l + k) = '\n' := beq_iff_eq.mp hnlb
  obtain ⟨hq1, hq2, _, _⟩ := (firstHitFrom_eq_some _ _ _ _).mp hff
  have hhlen : h ≤ s.length := by
    have := lt_length_of_charAt_newline s (i + l + k) hnl
    omega
  have hih : i ≤ h := by omega
  have hsplit : s.take h = s.take i ++ (s.drop i).take (h - i) := by
    have h1 := List.take_add s i (h - i)
    rw [show i + (h - i) = h by omega] at h1
    exact h1
  have hXR : s.take i ++ ((s.drop i).take (h - i) ++ block) ++ s.drop q
      = updatedDoc s block h q := by
    rw [updatedDoc, hsplit]
    simp [List.append_assoc]
  have e2 : ((updatedDoc s block h q).drop i).take (h - i)
      = (s.drop i).take (h - i) := by
    rw [updatedDoc_drop_le s block h q i hih hhlen]
    exact List.take_left' (by
      rw [List.length_take, List.length_drop]
      omega)
  constructor
  · rw [replace_ok_eq _ _ nm s block i h q hfm hnbH hnbB, hXR]
  · have hfmR := findMatch_updatedDoc pS pE s block i h q hfm hblk hws hnoE
    have hnbH2 : ∀ c ∈ ((updatedDoc s block h q).drop i).take (h - i),
        c ≠ '\\' := by
      rw [e2]
      exact hnbH
    rw [replace_ok_eq _ _ nm (updatedDoc s block h q) block i h
      (h + block.length) hfmR hnbH2 hnbB]
    have e1 : (updatedDoc s block h q).take i = s.take i := by
      have t1 : (updatedDoc s block h q).take i
          = ((updatedDoc s block h q).take h).take i := by
        rw [List.take_take, Nat.min_eq_left hih]
      rw [t1, updatedDoc_take_h s block h q hhlen, List.take_take,
        Nat.min_eq_left hih]
    have e3 : (updatedDoc s block h q).drop (h + block.length) = s.drop q :=
      updatedDoc_drop_end s block h q hhlen
    rw [e1, e2, e3, hXR]

theorem transform_some_eq (l : List (String × Metadata)) :
    transform (some l) = l.map transformRow := by
  cases l with
  | nil => rfl
  | cons x xs => rfl

/-- C1.  The transformer maps an absent or empty section to no rows; otherwise it
produces exactly one row per resource in order, the list (hence the set) of
`resource` values equals the list of input keys, with distinct keys each identifier
occurs in exactly one output row, and each row's `create`/`delete`/`update` value is
true exactly when the literal operation name is a member of that resource's methods
(case-sensitive). -/
theorem C1_transform_rows (l : List (String × Metadata))
    (hnd : (l.map Prod.fst).Nodup) :
    transform Option.none = [] ∧
    transform (some []) = [] ∧
    (transform (some l)).length = l.length ∧
    (transform (some l)).map (fun r => rowGet r "resource" (.str ""))
      = l.map (fun p => Value.str p.1) ∧
    (∀ key : String,
      (Value.str key ∈ (transform (some l)).map (fun r => rowGet r "resource" (.str ""))
        ↔ key ∈ l.map Prod.fst)) ∧
    (∀ key : String,
      ((transform (some l)).filter
        (fun r => rowGet r "resource" (.str "") == Value.str key)).length
        = if key ∈ l.map Prod.fst then 1 else 0) ∧
    (∀ p : String × Metadata,
      rowGet (transformRow p) "resource" (.str "") = Value.str p.1 ∧
      (rowGet (transformRow p) "create" (.str "") = Value.bool true ↔
        "Create" ∈ p.2.getD []) ∧
      (rowGet (transformRow p) "delete" (.str "") = Value.bool true ↔
        "Delete" ∈ p.2.getD []) ∧
      (rowGet (transformRow p) "update" (.str "") = Value.bool true ↔
        "Update" ∈ p.2.getD [])) := by
  have hmapres : (transform (some l)).map (fun r => rowGet r "resource" (.str ""))
      = l.map (fun p => Value.str p.1) := by
    rw [transform_some_eq, List.map_map]
    rfl
  refine ⟨rfl, rfl, by rw [transform_some_eq, List.length_map], hmapres, ?_, ?_, ?_⟩
  · intro key
    rw [hmapres]
    simp [List.mem_map]
  · intro key
    rw [transform_some_eq, List.filter_map, List.length_map,
      ← List.countP_eq_length_filter]
    have hcong : List.countP
        ((fun r => rowGet r "resource" (.str "") == Value.str key) ∘ transformRow) l
        = List.count key (l.map Prod.fst) := by
      rw [List.count_eq_countP, List.countP_map]
      apply List.countP_congr
      intro p _
      show (rowGet (transformRow p) "resource" (.str "") == Value.str key) = true ↔
        (p.1 == key) = true
      have h1 : rowGet (transformRow p) "resource" (.str "") = Value.str p.1 := rfl
      rw [h1]
      simp
    rw [hcong]
    by_cases hmem : key ∈ l.map Prod.fst
    · rw [if_pos hmem]
      exact List.count_eq_one_of_mem hnd hmem
    · rw [if_neg hmem]
      exact List.count_eq_zero_of_not_mem hmem
  · intro p
    refine ⟨rfl, ?_, ?_, ?_⟩
    all_goals
      constructor
      · intro hr
        have hb : ((p.2.getD []).contains _) = true := Value.bool.inj hr
        exact List.elem_iff.mp hb
      · intro hm
        have hb := List.elem_iff.mpr hm
        show Value.bool (List.elem _ _) = Value.bool true
        rw [hb]

/-- C9.  Rows come out of the transformer in the input's iteration (insertion)
order — the n-th row is built from the n-th key-metadata pair, and the `resource`
column lists the keys in order — and since a configuration without a sort key (as
the pipeline's `table_config`) skips the sort, the data rows are emitted in exactly
that order. -/
theorem C9_row_order (l : List (String × Metadata)) (cfg : TableConfig)
    (hs : cfg.sort_by = Option.none) :
    (transform (some l)).map (fun r => rowGet r "resource" (.str ""))
      = l.map (fun p => Value.str p.1) ∧
    (∀ n : Nat, (transform (some l))[n]? = (l[n]?).map transformRow) ∧
    table_config.sort_by = Option.none ∧
    (∀ data widths, write_data_rows cfg data widths
      = writes (data.map (fun row => data_row_string cfg widths row))) := by
  refine ⟨?_, ?_, rfl, ?_⟩
  · rw [transform_some_eq, List.map_map]
    rfl
  · intro n
    rw [transform_some_eq, List.getElem?_map]
  · intro data widths
    rcases cfg with ⟨cols, sb⟩
    have hsb : sb = Option.none := hs
    subst hsb
    rfl

theorem line_content_length (cells : List String) (h : cells ≠ []) :
    ∃ c : String, ("| " ++ pyJoin " | " cells ++ " |\n" : String) = c ++ "\n" ∧
      c.length = (cells.map String.length).sum + 3 * cells.length + 1 := by
  refine ⟨"| " ++ pyJoin " | " cells ++ " |", ?_, ?_⟩
  · have h1 : (" |\n" : String) = " |" ++ "\n" := rfl
    rw [h1, ← String.append_assoc]
  · have h2 : ("| " : String).length = 2 := rfl
    have h3 : (" |" : String).length = 2 := rfl
    have h4 : (" | " : String).length = 3 := rfl
    have hne : cells.length ≠ 0 := fun h0 => h (List.length_eq_zero.mp h0)
    simp only [String.length_append, h2, h3, length_pyJoin _ _ h, h4]
    omega

theorem zip_cells_lengths (cfg : TableConfig) (data : List Row)
    (f : ColumnConfig → Nat → String)
    (hf : ∀ col, (f col (column_width col data)).length = column_width col data) :
    ((cfg.columns.zip (calculate_column_widths cfg data)).map
      (fun cw => f cw.1 cw.2)).map String.length
      = calculate_column_widths cfg data := by
  rw [calculate_column_widths_eq, zip_map_self, List.map_map, List.map_map]
  exact List.map_congr_left (fun c _ => hf c)

theorem zip_cells_count (cfg : TableConfig) (data : List Row)
    (f : ColumnConfig → Nat → String) :
    ((cfg.columns.zip (calculate_column_widths cfg data)).map
      (fun cw => f cw.1 cw.2)).length = cfg.columns.length := by
  rw [calculate_column_widths_eq, zip_map_self, List.map_map, List.length_map]

theorem data_row_string_shape (cfg : TableConfig) (widths : List Nat) (row : Row) :
    ∃ u : String, data_row_string cfg widths row = u ++ "|\n" := by
  exact ⟨_, row_line_decomp _⟩

theorem generate_table_eq (cfg : TableConfig) (data : List Row) (hd : data ≠ []) :
    generate_table cfg (some data)
      = write_header_row cfg (calculate_column_widths cfg data)
        ++ write_separator_row cfg (calculate_column_widths cfg data)
        ++ write_data_rows cfg data (calculate_column_widths cfg data) := by
  obtain ⟨x, xs, rfl⟩ := List.exists_cons_of_ne_nil hd
  have hgt : generate_table cfg (some (x :: xs))
      = rstrip_newlines (write_header_row cfg (calculate_column_widths cfg (x :: xs))
        ++ write_separator_row cfg (calculate_column_widths cfg (x :: xs))
        ++ write_data_rows cfg (x :: xs) (calculate_column_widths cfg (x :: xs)))
        ++ "\n" := rfl
  obtain ⟨z, hz⟩ : ∃ z : String,
      write_data_rows cfg (x :: xs) (calculate_column_widths cfg (x :: xs))
        = z ++ "|\n" := by
    rw [write_data_rows]
    apply writes_pipe_newline
    · cases hsort : cfg.sort_by with
      | none =>
        simp only [hsort]
        simp
      | some k =>
        simp only [hsort]
        intro hemp
        have h0 := List.map_eq_nil_iff.mp hemp
        have h1 := List.length_insertionSort
          (fun x y => valueLe (rowGet x k (.str "")) (rowGet y k (.str "")) = true)
          (x :: xs)
        rw [h0] at h1
        simp at h1
    · intro a ha
      obtain ⟨r0, _, hr0⟩ := List.mem_map.mp ha
      rw [← hr0]
      exact data_row_string_shape cfg _ r0
  rw [hgt, hz, ← String.append_assoc, rstrip_newlines_pipe, String.append_assoc,
    show ("|" ++ "\n" : String) = "|\n" from rfl]

theorem header_le_column_width (col : ColumnConfig) (data : List Row) :
    col.header.length ≤ column_width col data :=
  foldl_max_init_le
    (fun row => (col.format_value (rowGet row col.key (.str ""))).length)
    data col.header.length

theorem cell_le_column_width (col : ColumnConfig) (data : List Row) (row : Row)
    (hr : row ∈ data) :
    (col.format_value (rowGet row col.key (.str ""))).length
      ≤ column_width col data :=
  foldl_max_mem_le
    (fun row => (col.format_value (rowGet row col.key (.str ""))).length)
    data col.header.length row hr

theorem header_cells_lengths (cfg : TableConfig) (data : List Row) :
    (((cfg.columns.zip (calculate_column_widths cfg data)).map
      (fun cw => format_cell cw.1.header cw.2 cw.1.alignment)).map String.length)
      = calculate_column_widths cfg data :=
  zip_cells_lengths cfg data (fun col w => format_cell col.header w col.alignment)
    (fun col => length_format_cell _ _ _ (header_le_column_width col data))

theorem header_cells_count (cfg : TableConfig) (data : List Row) :
    ((cfg.columns.zip (calculate_column_widths cfg data)).map
      (fun cw => format_cell cw.1.header cw.2 cw.1.alignment)).length
      = cfg.columns.length :=
  zip_cells_count cfg data (fun col w => format_cell col.header w col.alignment)

theorem data_cells_lengths (cfg : TableConfig) (data : List Row) (row : Row)
    (hr : row ∈ data) :
    (((cfg.columns.zip (calculate_column_widths cfg data)).map
      (fun cw => format_cell (cw.1.format_value (rowGet row cw.1.key (.str "")))
        cw.2 cw.1.alignment)).map String.length)
      = calculate_column_widths cfg data :=
  zip_cells_lengths cfg data
    (fun col w => format_cell (col.format_value (rowGet row col.key (.str ""))) w
      col.alignment)
    (fun col => length_format_cell _ _ _ (cell_le_column_width col data row hr))

theorem data_cells_count (cfg : TableConfig) (data : List Row) (row : Row) :
    ((cfg.columns.zip (calculate_column_widths cfg data)).map
      (fun cw => format_cell (cw.1.format_value (rowGet row cw.1.key (.str "")))
        cw.2 cw.1.alignment)).length = cfg.columns.length :=
  zip_cells_count cfg data
    (fun col w => format_cell (col.format_value (rowGet row col.key (.str ""))) w
      col.alignment)

/-- C10.  With at least one row and at least one column, the header line and every
data line consist of a content part of character length
`(sum of computed widths) + 3 · (number of columns) + 1` followed by one newline, and
the rendered table is exactly the header row, the separator row and the data rows
concatenated. -/
theorem C10_uniform_line_length (cfg : TableConfig) (data : List Row)
    (hd : data ≠ []) (hc : cfg.columns ≠ []) :
    (∃ c : String,
      write_header_row cfg (calculate_column_widths cfg data) = c ++ "\n" ∧
      c.length = (calculate_column_widths cfg data).sum
        + 3 * cfg.columns.length + 1) ∧
    (∀ row ∈ data, ∃ c : String,
      data_row_string cfg (calculate_column_widths cfg data) row = c ++ "\n" ∧
      c.length = (calculate_column_widths cfg data).sum
        + 3 * cfg.columns.length + 1) ∧
    generate_table cfg (some data)
      = write_header_row cfg (calculate_column_widths cfg data)
        ++ write_separator_row cfg (calculate_column_widths cfg data)
        ++ write_data_rows cfg data (calculate_column_widths cfg data) := by
  refine ⟨?_, ?_, generate_table_eq cfg data hd⟩
  · have hne : ((cfg.columns.zip (calculate_column_widths cfg data)).map
        (fun cw => format_cell cw.1.header cw.2 cw.1.alignment)) ≠ [] := by
      intro h0
      have hcc := header_cells_count cfg data
      rw [h0] at hcc
      exact hc (List.length_eq_zero.mp hcc.symm)
    obtain ⟨c, h1, h2⟩ := line_content_length _ hne
    refine ⟨c, h1, ?_⟩
    rw [header_cells_lengths, header_cells_count] at h2
    exact h2
  · intro row hr
    have hne : ((cfg.columns.zip (calculate_column_widths cfg data)).map
        (fun cw => format_cell (cw.1.format_value (rowGet row cw.1.key (.str "")))
          cw.2 cw.1.alignment)) ≠ [] := by
      intro h0
      have hcc := data_cells_count cfg data row
      rw [h0] at hcc
      exact hc (List.length_eq_zero.mp hcc.symm)
    obtain ⟨c, h1, h2⟩ := line_content_length _ hne
    refine ⟨c, h1, ?_⟩
    rw [data_cells_lengths cfg data row hr, data_cells_count] at h2
    exact h2

/-- C6, counterexample.  With an empty block the heading is not always kept
verbatim: the replacement template is the heading itself, so a heading whose text
contains a backslash-digit sequence is expanded as a backreference.  In
`A\1\nold\nB\n` with start pattern `A\1` the heading `A\1\n` becomes the template
`A` + group-1 + newline, which expands to `AA\1\n\n`, not the heading-plus-boundary
splice `A\1\nB\n`. -/
theorem C6_counterexample :
    replace_content_between (litMatchLen "A\\1".data) (litMatchAt "B".data)
      "A\\\\1" "A\\1\nold\nB\n".data []
      = .ok "AA\\1\n\nB\n".data ∧
    "AA\\1\n\nB\n".data
      ≠ "A\\1\nold\nB\n".data.take 4 ++ "A\\1\nold\nB\n".data.drop 8 := by
  exact ⟨rfl, by decide⟩

/-- C6, amended.  An absent or empty rows input renders as the empty string — no
table lines at all — and, provided the matched heading contains no backslash (so
the replacement template is literal), replacing a section with an empty block
yields the document with nothing between the preserved heading (which ends at its
newline) and the end boundary. -/
theorem C6_empty_section_policy (cfg : TableConfig)
    (sM : List Char → Nat → Option Nat) (eM : List Char → Nat → Bool)
    (nm : String) (s : List Char) (i h q : Nat)
    (hfm : findMatch sM eM s = some (i, h, q))
    (hnbH : ∀ c ∈ (s.drop i).take (h - i), c ≠ '\\') :
    generate_table cfg Option.none = "" ∧
    generate_table cfg (some []) = "" ∧
    replace_content_between sM eM nm s [] = .ok (s.take h ++ s.drop q) := by
  refine ⟨rfl, rfl, ?_⟩
  obtain ⟨hfh, hco⟩ := (findMatch_eq_some_iff sM eM s i h q).mp hfm
  obtain ⟨l, k, hsm, hlh, hff, hh⟩ := (composedOk_eq_some_iff sM eM s i h q).mp hco
  rw [replace_ok_eq sM eM nm s [] i h q hfm hnbH
    (fun c hc => absurd hc (List.not_mem_nil c)), List.append_nil]
  have h1 := List.take_add s i (h - i)
  rw [show i + (h - i) = h by omega] at h1
  rw [h1, List.append_assoc]

/-- Unfolding of the pipeline after loading: community replacement first, then the
pro replacement on its result, then the write decision. -/
theorem mainPipeline_eq (cat : Catalog) (doc : List Char) :
    mainPipeline cat doc
      = match replace_content_between communityStartM proEndM
          COMMUNITY_HEADING_NAME doc
          (generate_table table_config (some (transform cat.community))).data with
        | .error e => .error e
        | .ok d1 =>
          match replace_content_between proStartM apiEndM PRO_HEADING_NAME d1
              (generate_table table_config (some (transform cat.pro))).data with
          | .error e => .error e
          | .ok d2 => .ok (if d2 = doc then Option.none else some d2) := rfl

/-- Case split downstream of a successful section match: the result is either a
template error tagged with the re.error prefix or a successful substitution. -/
theorem replace_match_cases (sM : List Char → Nat → Option Nat)
    (eM : List Char → Nat → Bool) (nm : String) (s block : List Char)
    (i h q : Nat) (hfm : findMatch sM eM s = some (i, h, q)) :
    (∃ e, replace_content_between sM eM nm s block
        = .error ("re.error: " ++ e)) ∨
    (∃ d, replace_content_between sM eM nm s block = .ok d) := by
  rw [replace_content_between, hfm]
  rcases hp : parseTemplate 2 (if block.isEmpty then (s.drop i).take (h - i)
      else (s.drop i).take (h - i) ++ block) with e | items
  · left
    exact ⟨e, by simp only [hp]⟩
  · right
    exact ⟨s.take i
        ++ expandItems ((s.drop i).take (q - i)) ((s.drop i).take (h - i))
          ((s.drop h).take (q - h)) items
        ++ s.drop q, by simp only [hp]⟩

/-- C4, counterexample.  The claim's "raises iff the start pattern matches nowhere"
fails: in `A\nxx` with start pattern `A` and end pattern `B`, the start pattern does
match (at offset 0), yet the replacer raises the section-not-found error because the
end pattern never matches. -/
theorem C4_counterexample :
    (litMatchLen "A".data "A\nxx".data 0).isSome = true ∧
    replace_content_between (litMatchLen "A".data) (litMatchAt "B".data) "A"
      "A\nxx".data "y".data
      = .error ("Could not find section with heading pattern: " ++ "A") := by
  constructor
  · rfl
  · rfl

/-- C4, amended.  The replacer returns the section-not-found error — whose message
carries the failing start pattern — exactly when the composed heading pattern has no
match: no line-start position where the start pattern matches, followed by optional
whitespace, a newline and a reachable end-pattern match; equivalently, no position
up to the document length admits a complete composed match.  When the section does
match but the replacement template is invalid, the run instead fails with the
corresponding `re.error`.  In the pipeline a failure of the first (community)
replacement propagates immediately, so the second replacement is never attempted
and nothing is written; when both replacements succeed, the file is written only if
the result differs from the original. -/
theorem C4_error_handling (sM : List Char → Nat → Option Nat)
    (eM : List Char → Nat → Bool) (nm : String) (s block : List Char)
    (cat : Catalog) (doc d1 d2 : List Char) (e : String) :
    (replace_content_between sM eM nm s block
        = .error ("Could not find section with heading pattern: " ++ nm) ↔
      findMatch sM eM s = none) ∧
    (findMatch sM eM s = none ↔
      (∀ i, i ≤ s.length →
        (lineStart s i && (composedOk sM eM s i).isSome) = false)) ∧
    (∀ i h q e0, findMatch sM eM s = some (i, h, q) →
      parseTemplate 2 (if block.isEmpty then (s.drop i).take (h - i)
        else (s.drop i).take (h - i) ++ block) = .error e0 →
      replace_content_between sM eM nm s block = .error ("re.error: " ++ e0)) ∧
    (replace_content_between communityStartM proEndM COMMUNITY_HEADING_NAME doc
        (generate_table table_config (some (transform cat.community))).data
        = .error e →
      mainPipeline cat doc = .error e) ∧
    (replace_content_between communityStartM proEndM COMMUNITY_HEADING_NAME doc
        (generate_table table_config (some (transform cat.community))).data
        = .ok d1 →
      replace_content_between proStartM apiEndM PRO_HEADING_NAME d1
        (generate_table table_config (some (transform cat.pro))).data = .ok d2 →
      mainPipeline cat doc = .ok (if d2 = doc then Option.none else some d2)) := by
  refine ⟨?_, findMatch_eq_none_iff sM eM s, ?_, ?_, ?_⟩
  · constructor
    · intro herr
      rcases hfm : findMatch sM eM s with _ | ⟨⟨i, h, q⟩⟩
      · rfl
      · rcases replace_match_cases sM eM nm s block i h q hfm with
          ⟨e2, he2⟩ | ⟨d, hd⟩
        · rw [he2] at herr
          exact absurd (Except.error.inj herr) (re_error_ne_section e2 nm)
        · rw [hd] at herr
          cases herr
    · intro hnone
      rw [replace_content_between, hnone]
  · intro i h q e0 hfm hp
    rw [replace_content_between, hfm]
    simp only [hp]
  · intro h1
    rw [mainPipeline_eq, h1]
  · intro h1 h2
    rw [mainPipeline_eq, h1]
    show (match replace_content_between proStartM apiEndM PRO_HEADING_NAME d1
        (generate_table table_config (some (transform cat.pro))).data with
      | Except.error e => Except.error e
      | Except.ok d2 => Except.ok (if d2 = doc then Option.none else some d2))
      = Except.ok (if d2 = doc then Option.none else some d2)
    rw [h2]

/-! ### Witnesses: each hypothesis-bearing claim theorem applied at a concrete input -/

theorem C1_transform_rows_witness :
    (([("AWS::S3::Bucket", (some ["Create", "Delete"] : Metadata))].map
      Prod.fst).Nodup) ∧
    (transform (some [("AWS::S3::Bucket",
      (some ["Create", "Delete"] : Metadata))])).length = 1 :=
  ⟨by decide,
    (C1_transform_rows [("AWS::S3::Bucket", some ["Create", "Delete"])]
      (by decide)).2.2.1⟩

theorem C2_replace_frame_witness :
    findMatch (litMatchLen "### A".data) (litMatchAt "### B".data)
      "### A\nold\n### B\n".data = some (0, 6, 10) ∧
    replace_content_between (litMatchLen "### A".data) (litMatchAt "### B".data)
      "### A" "### A\nold\n### B\n".data "new\n".data
      = .ok ("### A\nold\n### B\n".data.take 6 ++ "new\n".data
          ++ "### A\nold\n### B\n".data.drop 10) :=
  ⟨rfl,
    (C2_replace_frame (litMatchLen "### A".data) (litMatchAt "### B".data)
      "### A" "### A\nold\n### B\n".data "new\n".data 0 6 10 rfl (by decide)
      (by decide)).1⟩

theorem C3_idempotent_witness :
    replace_content_between (litMatchLen "### A".data) (litMatchAt "### B".data)
      "### A" "### A\nold\n### B\n".data "new\n".data
      = .ok (updatedDoc "### A\nold\n### B\n".data "new\n".data 6 10) ∧
    replace_content_between (litMatchLen "### A".data) (litMatchAt "### B".data)
      "### A" (updatedDoc "### A\nold\n### B\n".data "new\n".data 6 10) "new\n".data
      = .ok (updatedDoc "### A\nold\n### B\n".data "new\n".data 6 10) :=
  C3_idempotent_for_clean_blocks "### A".data "### B".data "### A"
    "### A\nold\n### B\n".data "new\n".data 0 6 10 rfl (by decide) (by decide)
    (by decide) (by decide) (by decide)

theorem C4_error_handling_witness :
    replace_content_between communityStartM proEndM COMMUNITY_HEADING_NAME
      "no headings here\n".data
      (generate_table table_config
        (some (transform (Catalog.mk Option.none Option.none).community))).data
      = .error ("Could not find section with heading pattern: "
        ++ COMMUNITY_HEADING_NAME) ∧
    mainPipeline (Catalog.mk Option.none Option.none) "no headings here\n".data
      = .error ("Could not find section with heading pattern: "
        ++ COMMUNITY_HEADING_NAME) :=
  ⟨rfl,
    (C4_error_handling (litMatchLen []) (litMatchAt []) "x" [] []
      (Catalog.mk Option.none Option.none) "no headings here\n".data [] []
      ("Could not find section with heading pattern: "
        ++ COMMUNITY_HEADING_NAME)).2.2.2.1 rfl⟩

theorem C5_width_correctness_witness :
    ([[(("resource" : String), Value.str "AWS::S3::Bucket")]] : List Row) ≠ [] ∧
    (format_cell "AWS::S3::Bucket" 15 "left").length = 15 :=
  ⟨by decide,
    (C5_width_correctness
      (TableConfig.mk [ColumnConfig.mk "Resource" "resource" "left" Option.none]
        Option.none)
      [[("resource", Value.str "AWS::S3::Bucket")]] (by decide)
      (ColumnConfig.mk "Resource" "resource" "left" Option.none) 15
      (by exact List.mem_singleton.mpr rfl)).2.2.2.2
      [("resource", Value.str "AWS::S3::Bucket")]
      (by exact List.mem_singleton.mpr rfl)⟩

theorem C6_empty_section_policy_witness :
    findMatch (litMatchLen "### A".data) (litMatchAt "### B".data)
      "### A\nold\n### B\n".data = some (0, 6, 10) ∧
    replace_content_between (litMatchLen "### A".data) (litMatchAt "### B".data)
      "### A" "### A\nold\n### B\n".data [] = .ok "### A\n### B\n".data :=
  ⟨rfl,
    (C6_empty_section_policy table_config (litMatchLen "### A".data)
      (litMatchAt "### B".data) "### A" "### A\nold\n### B\n".data 0 6 10 rfl
      (by decide)).2.2⟩

theorem C7_separator_encoding_witness :
    ("left" : String) ≠ "right" ∧
    (get_alignment_separator "left" 3).data = List.replicate 3 '-' :=
  ⟨by decide, (C7_separator_encoding 3).2.2 "left" (by decide) (by decide)⟩

theorem C8_missing_value_rendering_witness :
    (ColumnConfig.mk "Create" "create" "right" (some bool_formatter)).formatter
      = some bool_formatter ∧
    (ColumnConfig.mk "Create" "create" "right" (some bool_formatter)).format_value
      (rowGet [("create", Value.bool true)] "create" (.str ""))
      = bool_formatter (rowGet [("create", Value.bool true)] "create" (.str "")) :=
  ⟨rfl,
    (C8_missing_value_rendering [("create", Value.bool true)]
      (ColumnConfig.mk "Create" "create" "right" (some bool_formatter))).1
      bool_formatter rfl⟩

theorem C9_row_order_witness :
    table_config.sort_by = Option.none ∧
    write_data_rows table_config [[("resource", Value.str "X")]] [8, 6, 6, 6]
      = writes ([[("resource", Value.str "X")]].map
        (fun row => data_row_string table_config [8, 6, 6, 6] row)) :=
  ⟨rfl, (C9_row_order [] table_config rfl).2.2.2 [[("resource", Value.str "X")]]
    [8, 6, 6, 6]⟩

theorem C10_uniform_line_length_witness :
    ([[(("resource" : String), Value.str "AWS::S3::Bucket")]] : List Row) ≠ [] ∧
    table_config.columns ≠ [] ∧
    ∃ c : String,
      write_header_row table_config (calculate_column_widths table_config
        [[("resource", Value.str "AWS::S3::Bucket")]]) = c ++ "\n" ∧
      c.length = (calculate_column_widths table_config
          [[("resource", Value.str "AWS::S3::Bucket")]]).sum
        + 3 * table_config.columns.length + 1 :=
  ⟨by decide, by exact List.cons_ne_nil _ _,
    (C10_uniform_line_length table_config
      [[("resource", Value.str "AWS::S3::Bucket")]] (by decide)
      (by exact List.cons_ne_nil _ _)).1⟩

end CfnCoverage
